import Mathlib

/-!
Chip-8 disassembler: the instruction decoder and the driver of `Main.c`.

A shallow embedding of `DisassembleInstruction` (Main.c, lines 26-245) and of `main`
(Main.c, lines 247-289) together with the part of `sprintf` and `printf` they rely on,
followed by the properties of the decoder and of the driver.

* `unsigned short` / `unsigned char` values are natural numbers; the bit operations of
  the source (`>>`, `&`, the cast to `unsigned char`) are kept as such.
* The C function returns `1` and fills the caller's buffer, or returns `0` and leaves
  the buffer alone.  This is `some text` and `none` respectively.
-/

namespace Chip8

/-! ## The conversions of `sprintf` used by the source -/

/-- Character of one digit value, uppercase for the values ten to fifteen (the digits
produced by the `X` and `d` conversions). -/
def digitChar (d : Nat) : Char :=
  match d with
  | 0 => '0'
  | 1 => '1'
  | 2 => '2'
  | 3 => '3'
  | 4 => '4'
  | 5 => '5'
  | 6 => '6'
  | 7 => '7'
  | 8 => '8'
  | 9 => '9'
  | 10 => 'A'
  | 11 => 'B'
  | 12 => 'C'
  | 13 => 'D'
  | 14 => 'E'
  | 15 => 'F'
  | _ => '?'

/-- Digits of `n` in base `base`, most significant first, without leading zeros (a
single `0` for zero).  `fuel` bounds the number of digits produced; `n + 1` is always
enough. -/
def digitsCore (base : Nat) : Nat → Nat → List Char → List Char
  | 0, _, acc => acc
  | fuel + 1, n, acc =>
    if n < base then digitChar n :: acc
    else digitsCore base fuel (n / base) (digitChar (n % base) :: acc)

/-- Digits of `n` in the given base, most significant first. -/
def digitsOf (base n : Nat) : List Char :=
  digitsCore base (n + 1) n []

/-- Left padding with `'0'` up to a minimum field width (the `0` flag with a width). -/
def zeroPad (width : Nat) (ds : List Char) : List Char :=
  List.replicate (width - ds.length) '0' ++ ds

/-- Left padding with blanks up to a minimum field width (a width without the `0` flag). -/
def spacePad (width : Nat) (ds : List Char) : List Char :=
  List.replicate (width - ds.length) ' ' ++ ds

/-- Conversion `%03X`. -/
def fmt03X (n : Nat) : String := String.mk (zeroPad 3 (digitsOf 16 n))

/-- Conversion `%02X`. -/
def fmt02X (n : Nat) : String := String.mk (zeroPad 2 (digitsOf 16 n))

/-- Conversion `%1X`. -/
def fmt1X (n : Nat) : String := String.mk (spacePad 1 (digitsOf 16 n))

/-- Conversion `%d` of a non-negative argument. -/
def fmtd (n : Nat) : String := String.mk (digitsOf 10 n)

/-! ## Field extraction (Main.c, lines 32-37) -/

/-- `Opcode = Instruction >> 12`, stored in an `unsigned char`. -/
def Opcode (Instruction : Nat) : Nat := (Instruction >>> 12) % 256

/-- `Address = Instruction & 0x0FFF`, stored in an `unsigned short`. -/
def Address (Instruction : Nat) : Nat := (Instruction &&& 0x0FFF) % 65536

/-- `Byte = (unsigned char) Instruction`. -/
def Byte (Instruction : Nat) : Nat := Instruction % 256

/-- `High_Nibble = (Instruction >> 8) & 0x0F`, stored in an `unsigned char`. -/
def High_Nibble (Instruction : Nat) : Nat := ((Instruction >>> 8) &&& 0x0F) % 256

/-- `Middle_Nibble = (Instruction >> 4) & 0x0F`, stored in an `unsigned char`. -/
def Middle_Nibble (Instruction : Nat) : Nat := ((Instruction >>> 4) &&& 0x0F) % 256

/-- `Low_Nibble = Instruction & 0x0F`, stored in an `unsigned char`. -/
def Low_Nibble (Instruction : Nat) : Nat := (Instruction &&& 0x0F) % 256

/-! ## The decoder (Main.c, lines 39-244) -/

/-- Disassemble a single instruction: `some text` when the C function returns `1`
with `text` written to the output buffer, `none` when it returns `0`. -/
def DisassembleInstruction (Instruction : Nat) : Option String :=
  let Address := Address Instruction
  let Byte := Byte Instruction
  let High_Nibble := High_Nibble Instruction
  let Middle_Nibble := Middle_Nibble Instruction
  let Low_Nibble := Low_Nibble Instruction
  match Opcode Instruction with
  | 0 =>
    if High_Nibble = 0 ∧ Byte = 0xE0 then some "CLS"
    else if High_Nibble = 0 ∧ Byte = 0xEE then some "RET"
    else some ("SYS 0x" ++ fmt03X Address)
  | 1 => some ("JP 0x" ++ fmt03X Address)
  | 2 => some ("CALL 0x" ++ fmt03X Address)
  | 3 => some ("SE V" ++ fmt1X High_Nibble ++ ", 0x" ++ fmt02X Byte ++ " (" ++ fmtd Byte ++ ")")
  | 4 => some ("SNE V" ++ fmt1X High_Nibble ++ ", 0x" ++ fmt02X Byte ++ " (" ++ fmtd Byte ++ ")")
  | 5 =>
    if Low_Nibble ≠ 0 then none
    else some ("SE V" ++ fmt1X High_Nibble ++ ", V" ++ fmt1X Middle_Nibble)
  | 6 => some ("LD V" ++ fmt1X High_Nibble ++ ", 0x" ++ fmt02X Byte ++ " (" ++ fmtd Byte ++ ")")
  | 7 => some ("ADD V" ++ fmt1X High_Nibble ++ ", 0x" ++ fmt02X Byte ++ " (" ++ fmtd Byte ++ ")")
  | 8 =>
    match Low_Nibble with
    | 0 => some ("LD V" ++ fmt1X High_Nibble ++ ", V" ++ fmt1X Middle_Nibble)
    | 1 => some ("OR V" ++ fmt1X High_Nibble ++ ", V" ++ fmt1X Middle_Nibble)
    | 2 => some ("AND V" ++ fmt1X High_Nibble ++ ", V" ++ fmt1X Middle_Nibble)
    | 3 => some ("XOR V" ++ fmt1X High_Nibble ++ ", V" ++ fmt1X Middle_Nibble)
    | 4 => some ("ADD V" ++ fmt1X High_Nibble ++ ", V" ++ fmt1X Middle_Nibble)
    | 5 => some ("SUB V" ++ fmt1X High_Nibble ++ ", V" ++ fmt1X Middle_Nibble)
    | 6 => some ("SHR V" ++ fmt1X High_Nibble ++ ", V" ++ fmt1X Middle_Nibble)
    | 7 => some ("SUBN V" ++ fmt1X High_Nibble ++ ", V" ++ fmt1X Middle_Nibble)
    | 0xE => some ("SHL V" ++ fmt1X High_Nibble ++ ", V" ++ fmt1X Middle_Nibble)
    | _ => none
  | 9 =>
    if Low_Nibble ≠ 0 then none
    else some ("SNE V" ++ fmt1X High_Nibble ++ ", V" ++ fmt1X Middle_Nibble)
  | 0xA => some ("LD I, 0x" ++ fmt03X Address)
  | 0xB => some ("JP V0, 0x" ++ fmt03X Address)
  | 0xC => some ("RND V" ++ fmt1X High_Nibble ++ ", 0x" ++ fmt02X Byte ++ " (" ++ fmtd Byte ++ ")")
  | 0xD =>
    some ("DRW V" ++ fmt1X High_Nibble ++ ", V" ++ fmt1X Middle_Nibble ++ ", 0x" ++ fmt1X Low_Nibble)
  | 0xE =>
    match Byte with
    | 0x9E => some ("SKP V" ++ fmt1X High_Nibble)
    | 0xA1 => some ("SKNP V" ++ fmt1X High_Nibble)
    | _ => none
  | 0xF =>
    match Byte with
    | 0x07 => some ("LD V" ++ fmt1X High_Nibble ++ ", DT")
    | 0x0A => some ("LD V" ++ fmt1X High_Nibble ++ ", K")
    | 0x15 => some ("LD DT, V" ++ fmt1X High_Nibble)
    | 0x18 => some ("LD ST, V" ++ fmt1X High_Nibble)
    | 0x1E => some ("ADD I, V" ++ fmt1X High_Nibble)
    | 0x29 => some ("LD F, V" ++ fmt1X High_Nibble)
    | 0x33 => some ("LD B, V" ++ fmt1X High_Nibble)
    | 0x55 => some ("LD [I], V" ++ fmt1X High_Nibble)
    | 0x65 => some ("LD V" ++ fmt1X High_Nibble ++ ", [I]")
    | _ => none
  | _ => none

/-! ## Reference renderings

Independent descriptions of the operand renderings, written digit by digit, against
which the output of the conversions above is compared. -/

/-- One hexadecimal digit. -/
def hex1 (n : Nat) : String := String.mk [digitChar n]

/-- Exactly two hexadecimal digits, zero padded. -/
def hex2 (n : Nat) : String := String.mk [digitChar (n / 16), digitChar (n % 16)]

/-- Exactly three hexadecimal digits, zero padded. -/
def hex3 (n : Nat) : String :=
  String.mk [digitChar (n / 256), digitChar (n / 16 % 16), digitChar (n % 16)]

/-- Decimal rendering of a byte without padding: one, two or three digits. -/
def dec (n : Nat) : String :=
  if n < 10 then String.mk [digitChar n]
  else if n < 100 then String.mk [digitChar (n / 10), digitChar (n % 10)]
  else String.mk [digitChar (n / 100), digitChar (n / 10 % 10), digitChar (n % 10)]

/-- Value of an uppercase hexadecimal digit character. -/
def charValue (c : Char) : Option Nat :=
  if '0'.toNat ≤ c.toNat ∧ c.toNat ≤ '9'.toNat then some (c.toNat - '0'.toNat)
  else if 'A'.toNat ≤ c.toNat ∧ c.toNat ≤ 'F'.toNat then some (c.toNat - 'A'.toNat + 10)
  else none

/-- Number denoted by a string of digits in the given base, `none` when the string is
empty or holds a character that is not a digit of that base. -/
def valueIn (base : Nat) (s : String) : Option Nat :=
  match s.data with
  | [] => none
  | cs => cs.foldl
      (fun acc c =>
        match acc, charValue c with
        | some a, some d => if d < base then some (a * base + d) else none
        | _, _ => none)
      (some 0)

/-- The words the opcode table lists as recognized, by their bit fields. -/
def inTable (w : Nat) : Prop :=
  (w / 4096 = 0 ∨ w / 4096 = 1 ∨ w / 4096 = 2 ∨ w / 4096 = 3 ∨ w / 4096 = 4 ∨ w / 4096 = 6 ∨
    w / 4096 = 7 ∨ w / 4096 = 0xA ∨ w / 4096 = 0xB ∨ w / 4096 = 0xC ∨ w / 4096 = 0xD) ∨
  ((w / 4096 = 5 ∨ w / 4096 = 9) ∧ w % 16 = 0) ∨
  (w / 4096 = 8 ∧ (w % 16 = 0 ∨ w % 16 = 1 ∨ w % 16 = 2 ∨ w % 16 = 3 ∨ w % 16 = 4 ∨
    w % 16 = 5 ∨ w % 16 = 6 ∨ w % 16 = 7 ∨ w % 16 = 0xE)) ∨
  (w / 4096 = 0xE ∧ (w % 256 = 0x9E ∨ w % 256 = 0xA1)) ∨
  (w / 4096 = 0xF ∧ (w % 256 = 0x07 ∨ w % 256 = 0x0A ∨ w % 256 = 0x15 ∨ w % 256 = 0x18 ∨
    w % 256 = 0x1E ∨ w % 256 = 0x29 ∨ w % 256 = 0x33 ∨ w % 256 = 0x55 ∨ w % 256 = 0x65))

instance (w : Nat) : Decidable (inTable w) := by
  unfold inTable
  infer_instance

/-- Mnemonic selected by the low nibble under opcode 8. -/
def aluName (n : Nat) : Option String :=
  if n = 0 then some "LD" else if n = 1 then some "OR" else if n = 2 then some "AND"
  else if n = 3 then some "XOR" else if n = 4 then some "ADD" else if n = 5 then some "SUB"
  else if n = 6 then some "SHR" else if n = 7 then some "SUBN" else if n = 0xE then some "SHL"
  else none

/-- Number of 16-bit words the decoder rejects (returns `0` for). -/
def unrecognizedCount : Nat :=
  (List.range 65536).countP (fun w => (DisassembleInstruction w).isNone)

/-- Number of 16-bit words the decoder accepts (returns `1` for). -/
def recognizedCount : Nat :=
  (List.range 65536).countP (fun w => (DisassembleInstruction w).isSome)

/-- Number of recognized words among the 4096 words of one primary opcode. -/
def chunkCount (op : Nat) : Nat :=
  if op = 5 ∨ op = 9 then 256
  else if op = 8 then 2304
  else if op = 0xE then 32
  else if op = 0xF then 144
  else 4096

/-- Recognition of the word `4096 * op + j`, read off the low twelve bits `j`. -/
def chunkPred (op j : Nat) : Prop :=
  if op = 5 ∨ op = 9 then j % 16 = 0
  else if op = 8 then (j % 16 = 0 ∨ j % 16 = 1 ∨ j % 16 = 2 ∨ j % 16 = 3 ∨ j % 16 = 4 ∨
    j % 16 = 5 ∨ j % 16 = 6 ∨ j % 16 = 7 ∨ j % 16 = 0xE)
  else if op = 0xE then (j % 256 = 0x9E ∨ j % 256 = 0xA1)
  else if op = 0xF then (j % 256 = 0x07 ∨ j % 256 = 0x0A ∨ j % 256 = 0x15 ∨ j % 256 = 0x18 ∨
    j % 256 = 0x1E ∨ j % 256 = 0x29 ∨ j % 256 = 0x33 ∨ j % 256 = 0x55 ∨ j % 256 = 0x65)
  else True

/-! ## The driver (Main.c, lines 247-289) -/

/-- Conversion `%04X`. -/
def fmt04X (n : Nat) : String := String.mk (zeroPad 4 (digitsOf 16 n))

/-- Exactly four hexadecimal digits, zero padded. -/
def hex4 (n : Nat) : String :=
  String.mk [digitChar (n / 4096), digitChar (n / 256 % 16), digitChar (n / 16 % 16),
    digitChar (n % 16)]

/-- `PROGRAM_DEFAULT_ENTRY_POINT` (Main.c, line 15). -/
def PROGRAM_DEFAULT_ENTRY_POINT : Nat := 0x0200

/-- `EXIT_SUCCESS` of `stdlib.h`. -/
def EXIT_SUCCESS : Nat := 0

/-- `EXIT_FAILURE` of `stdlib.h`. -/
def EXIT_FAILURE : Nat := 1

/-- Value of the `unsigned short` object after `fread` stored the two bytes `b0`, `b1`
of the file at its first and second byte, on a little-endian or big-endian host. -/
def freadInstruction (littleEndian : Bool) (b0 b1 : Fin 256) : Nat :=
  if littleEndian then b0.val + 256 * b1.val else 256 * b0.val + b1.val

/-- `ntohs` of `arpa/inet.h`: network (big-endian) to host byte order on 16 bits; the
two bytes are swapped on a little-endian host and left alone on a big-endian one. -/
def ntohs (littleEndian : Bool) (x : Nat) : Nat :=
  if littleEndian then (x % 256) * 256 + x / 256 % 256 else x % 65536

/-- Output of `printf("0x%03X:\t0x%04X\t%s\n", Instruction_Address, Instruction, text)`. -/
def printfLine (Instruction_Address Instruction : Nat) (text : String) : String :=
  "0x" ++ fmt03X Instruction_Address ++ ":\t0x" ++ fmt04X Instruction ++ "\t" ++ text ++ "\n"

/-- The `while (1)` loop of `main` on the bytes still unread: the outputs of its
`printf` calls, one per iteration.  The loop ends when `fread` cannot deliver a complete
two-byte record.  `Instruction_Address` is the 32-bit `int` counter of the source, held
as its two's-complement bit pattern (a number below `2 ^ 32`), which is the value that
`%03X` prints; `Instruction_Address++` wraps around modulo `2 ^ 32`. -/
def disassembleLoop (littleEndian : Bool) : List (Fin 256) → Nat → List String
  | b0 :: b1 :: rest, Instruction_Address =>
    let Instruction := ntohs littleEndian (freadInstruction littleEndian b0 b1)
    let String_Disassembled_Instruction :=
      match DisassembleInstruction Instruction with
      | some text => text
      | none => "???"
    printfLine Instruction_Address Instruction String_Disassembled_Instruction ::
      disassembleLoop littleEndian rest ((Instruction_Address + 1) % 4294967296)
  | _, _ => []

/-- The program: `argv` is the argument vector (`argc` its length), `fopen path` the
content of the file when it can be opened for reading and `none` otherwise.  The result
is the sequence of outputs of the `printf` calls and the exit code. -/
def main (littleEndian : Bool) (fopen : String → Option (List (Fin 256)))
    (argv : List String) : List String × Nat :=
  if argv.length ≠ 2 then
    (["Error : bad parameters.\nUsage : " ++ argv.headD "(null)" ++
        " programFileToDisassemble\n"], EXIT_FAILURE)
  else
    match fopen (argv.getD 1 "") with
    | none => (["Error : could not load program '" ++ argv.getD 1 "" ++ "'.\n"], EXIT_FAILURE)
    | some bytes => (disassembleLoop littleEndian bytes PROGRAM_DEFAULT_ENTRY_POINT, EXIT_SUCCESS)

/-- Word of the `k`-th two-byte record of a byte stream, high byte first. -/
def wordAt (bytes : List (Fin 256)) (k : Nat) : Nat :=
  256 * (bytes.getD (2 * k) 0).val + (bytes.getD (2 * k + 1) 0).val

/-- Text field of a line: the mnemonic of a recognized word, `???` otherwise. -/
def textOf (w : Nat) : String :=
  match DisassembleInstruction w with
  | some text => text
  | none => "???"

/-- Text of a line before its final newline. -/
def lineBody (Instruction_Address Instruction : Nat) (text : String) : String :=
  "0x" ++ fmt03X Instruction_Address ++ ":\t0x" ++ fmt04X Instruction ++ "\t" ++ text

/-- Number of newline characters in a sequence of outputs. -/
def newlineCount (outputs : List String) : Nat :=
  (outputs.map (fun s => s.data.count '\n')).sum

/-- One step of reading a digit string: the value so far and the next character. -/
def valueStep (base : Nat) (acc : Option Nat) (c : Char) : Option Nat :=
  match acc, charValue c with
  | some a, some d => if d < base then some (a * base + d) else none
  | _, _ => none

/-- Value of the hexadecimal digit at position `i` of a text (0 when there is none). -/
def digitAt (cs : List Char) (i : Nat) : Nat := (charValue (cs.getD i ' ')).getD 0

/-- An assembler for the texts of the decoder: the mnemonic is recognized from the
characters that are fixed in its template, the operands are read back from the digit
positions.  It is used as a left inverse of `DisassembleInstruction`. -/
def assemble (cs : List Char) : Nat :=
  let c := fun i => cs.getD i ' '
  let d := digitAt cs
  if c 0 = 'C' then
    if c 1 = 'L' then 0x00E0
    else 0x2000 + 256 * d 7 + 16 * d 8 + d 9
  else if c 0 = 'R' then
    if c 1 = 'E' then 0x00EE
    else 0xC000 + 256 * d 5 + 16 * d 10 + d 11
  else if c 0 = 'S' then
    if c 1 = 'Y' then 256 * d 6 + 16 * d 7 + d 8
    else if c 1 = 'E' then
      if c 7 = '0' then 0x3000 + 256 * d 4 + 16 * d 9 + d 10
      else 0x5000 + 256 * d 4 + 16 * d 8
    else if c 1 = 'N' then
      if c 8 = '0' then 0x4000 + 256 * d 5 + 16 * d 10 + d 11
      else 0x9000 + 256 * d 5 + 16 * d 9
    else if c 1 = 'U' then
      if c 3 = 'N' then 0x8007 + 256 * d 6 + 16 * d 10
      else 0x8005 + 256 * d 5 + 16 * d 9
    else if c 1 = 'H' then
      if c 2 = 'R' then 0x8006 + 256 * d 5 + 16 * d 9
      else 0x800E + 256 * d 5 + 16 * d 9
    else
      if c 2 = 'P' then 0xE09E + 256 * d 5
      else 0xE0A1 + 256 * d 6
  else if c 0 = 'J' then
    if c 3 = 'V' then 0xB000 + 256 * d 9 + 16 * d 10 + d 11
    else 0x1000 + 256 * d 5 + 16 * d 6 + d 7
  else if c 0 = 'L' then
    if c 3 = 'V' then
      if c 7 = '0' then 0x6000 + 256 * d 4 + 16 * d 9 + d 10
      else if c 7 = 'V' then 0x8000 + 256 * d 4 + 16 * d 8
      else if c 7 = 'D' then 0xF007 + 256 * d 4
      else if c 7 = 'K' then 0xF00A + 256 * d 4
      else 0xF065 + 256 * d 4
    else if c 3 = 'I' then 0xA000 + 256 * d 8 + 16 * d 9 + d 10
    else if c 3 = 'D' then 0xF015 + 256 * d 8
    else if c 3 = 'S' then 0xF018 + 256 * d 8
    else if c 3 = 'F' then 0xF029 + 256 * d 7
    else if c 3 = 'B' then 0xF033 + 256 * d 7
    else 0xF055 + 256 * d 9
  else if c 0 = 'A' then
    if c 1 = 'N' then 0x8002 + 256 * d 5 + 16 * d 9
    else if c 4 = 'I' then 0xF01E + 256 * d 8
    else if c 8 = '0' then 0x7000 + 256 * d 5 + 16 * d 10 + d 11
    else 0x8004 + 256 * d 5 + 16 * d 9
  else if c 0 = 'O' then 0x8001 + 256 * d 4 + 16 * d 8
  else if c 0 = 'X' then 0x8003 + 256 * d 5 + 16 * d 9
  else if c 0 = 'D' then 0xD000 + 256 * d 5 + 16 * d 9 + d 14
  else 0

/-! ## Lemmas on the fields -/

theorem Opcode_eq (w : Nat) (h : w < 65536) : Opcode w = w / 4096 := by
  unfold Opcode
  rw [Nat.shiftRight_eq_div_pow]
  omega

theorem Address_eq (w : Nat) : Address w = w % 4096 := by
  unfold Address
  have h := Nat.and_pow_two_sub_one_eq_mod w 12
  norm_num at h
  rw [h]
  omega

theorem Byte_eq (w : Nat) : Byte w = w % 256 := rfl

theorem High_Nibble_eq (w : Nat) : High_Nibble w = w / 256 % 16 := by
  unfold High_Nibble
  have h := Nat.and_pow_two_sub_one_eq_mod (w >>> 8) 4
  norm_num at h
  rw [h, Nat.shiftRight_eq_div_pow]
  omega

theorem Middle_Nibble_eq (w : Nat) : Middle_Nibble w = w / 16 % 16 := by
  unfold Middle_Nibble
  have h := Nat.and_pow_two_sub_one_eq_mod (w >>> 4) 4
  norm_num at h
  rw [h, Nat.shiftRight_eq_div_pow]
  omega

theorem Low_Nibble_eq (w : Nat) : Low_Nibble w = w % 16 := by
  unfold Low_Nibble
  have h := Nat.and_pow_two_sub_one_eq_mod w 4
  norm_num at h
  rw [h]
  omega

/-! ## Lemmas on the conversions -/

theorem digitsOf_lt (b n : Nat) (h : n < b) : digitsOf b n = [digitChar n] := by
  simp [digitsOf, digitsCore, h]

theorem digitsOf_two (b n : Nat) (h1 : b ≤ n) (h2 : n / b < b) :
    digitsOf b n = [digitChar (n / b), digitChar (n % b)] := by
  have hb : 0 < b := by
    rcases Nat.eq_zero_or_pos b with h0 | h0
    · subst h0; simp at h2
    · exact h0
  obtain ⟨m, rfl⟩ : ∃ m, n = m + 1 := ⟨n - 1, by omega⟩
  have h3 : ¬ (m + 1 < b) := by omega
  simp [digitsOf, digitsCore, h3, h2]

theorem digitsOf_three (b n : Nat) (h1 : b ≤ n / b) (h2 : n / b / b < b) :
    digitsOf b n = [digitChar (n / b / b), digitChar (n / b % b), digitChar (n % b)] := by
  have hb : 0 < b := by
    rcases Nat.eq_zero_or_pos b with h0 | h0
    · subst h0; simp at h2
    · exact h0
  have hn : b ≤ n := by
    have := Nat.div_le_self n b
    omega
  have hb2 : 2 ≤ b := by
    rcases Nat.lt_or_ge b 2 with h0 | h0
    · have : b = 1 := by omega
      subst this
      simp at h1 h2
      omega
    · exact h0
  obtain ⟨m, rfl⟩ : ∃ m, n = m + 2 := ⟨n - 2, by omega⟩
  have h3 : ¬ (m + 2 < b) := by omega
  have h4 : ¬ ((m + 2) / b < b) := by omega
  simp [digitsOf, digitsCore, h3, h4, h2]

theorem fmt1X_eq (n : Nat) (h : n < 16) : fmt1X n = hex1 n := by
  simp [fmt1X, hex1, spacePad, digitsOf_lt 16 n h]

theorem fmt02X_eq (n : Nat) (h : n < 256) : fmt02X n = hex2 n := by
  rcases Nat.lt_or_ge n 16 with h1 | h1
  · have h2 : n / 16 = 0 := by omega
    have h3 : n % 16 = n := by omega
    simp [fmt02X, hex2, zeroPad, digitsOf_lt 16 n h1, h2, h3, digitChar]
  · have h2 : n / 16 < 16 := by omega
    simp [fmt02X, hex2, zeroPad, digitsOf_two 16 n h1 h2]

theorem fmt03X_eq (n : Nat) (h : n < 4096) : fmt03X n = hex3 n := by
  rcases Nat.lt_or_ge n 16 with h1 | h1
  · have h2 : n / 256 = 0 := by omega
    have h3 : n / 16 % 16 = 0 := by omega
    have h4 : n % 16 = n := by omega
    simp [fmt03X, hex3, zeroPad, digitsOf_lt 16 n h1, h2, h3, h4, digitChar]
  · rcases Nat.lt_or_ge n 256 with h5 | h5
    · have h2 : n / 16 < 16 := by omega
      have h3 : n / 256 = 0 := by omega
      have h4 : n / 16 % 16 = n / 16 := by omega
      simp [fmt03X, hex3, zeroPad, digitsOf_two 16 n h1 h2, h3, h4, digitChar]
    · have h2 : 16 ≤ n / 16 := by omega
      have h3 : n / 16 / 16 < 16 := by omega
      have h4 : n / 16 / 16 = n / 256 := by omega
      simp [fmt03X, hex3, zeroPad, digitsOf_three 16 n h2 h3, h4]

theorem fmtd_eq (n : Nat) (h : n < 256) : fmtd n = dec n := by
  rcases Nat.lt_or_ge n 10 with h1 | h1
  · simp [fmtd, dec, digitsOf_lt 10 n h1, h1]
  · rcases Nat.lt_or_ge n 100 with h5 | h5
    · have h2 : n / 10 < 10 := by omega
      have h3 : ¬ (n < 10) := by omega
      simp [fmtd, dec, digitsOf_two 10 n h1 h2, h3, h5]
    · have h2 : 10 ≤ n / 10 := by omega
      have h3 : n / 10 / 10 < 10 := by omega
      have h4 : n / 10 / 10 = n / 100 := by omega
      have h6 : ¬ (n < 10) := by omega
      have h7 : ¬ (n < 100) := by omega
      simp [fmtd, dec, digitsOf_three 10 n h2 h3, h4, h6, h7]

/-! ## Lemmas on the reference renderings -/

theorem charValue_digitChar (d : Nat) (h : d < 16) : charValue (digitChar d) = some d := by
  interval_cases d <;> decide

theorem valueIn_hex1 (n : Nat) (h : n < 16) : valueIn 16 (hex1 n) = some n := by
  simp [valueIn, hex1, charValue_digitChar n h, h]

theorem valueIn_hex2 (n : Nat) (h : n < 256) : valueIn 16 (hex2 n) = some n := by
  have h1 : n / 16 < 16 := by omega
  have h2 : n % 16 < 16 := by omega
  simp [valueIn, hex2, charValue_digitChar _ h1, charValue_digitChar _ h2, h1, h2]
  omega

theorem valueIn_hex3 (n : Nat) (h : n < 4096) : valueIn 16 (hex3 n) = some n := by
  have h1 : n / 256 < 16 := by omega
  have h2 : n / 16 % 16 < 16 := by omega
  have h3 : n % 16 < 16 := by omega
  simp [valueIn, hex3, charValue_digitChar _ h1, charValue_digitChar _ h2,
    charValue_digitChar _ h3, h1, h2, h3]
  omega

theorem valueIn_dec (n : Nat) (h : n < 256) : valueIn 10 (dec n) = some n := by
  unfold dec
  split
  · rename_i h1
    have h2 : n < 16 := by omega
    simp [valueIn, charValue_digitChar n h2, h1]
  · split
    · rename_i h0 h1
      have h2 : n / 10 < 16 := by omega
      have h3 : n % 10 < 16 := by omega
      have h4 : n / 10 < 10 := by omega
      have h5 : n % 10 < 10 := by omega
      simp [valueIn, charValue_digitChar _ h2, charValue_digitChar _ h3, h4, h5]
      omega
    · have h2 : n / 100 < 16 := by omega
      have h3 : n / 10 % 10 < 16 := by omega
      have h4 : n % 10 < 16 := by omega
      have h5 : n / 100 < 10 := by omega
      have h6 : n / 10 % 10 < 10 := by omega
      have h7 : n % 10 < 10 := by omega
      simp [valueIn, charValue_digitChar _ h2, charValue_digitChar _ h3,
        charValue_digitChar _ h4, h5, h6, h7]
      omega

/-! ## Recognition -/

theorem isSome_iff_inTable (w : Nat) (h : w < 65536) :
    (DisassembleInstruction w).isSome = true ↔ inTable w := by
  have hop := Opcode_eq w h
  have hlt : w / 4096 < 16 := by omega
  obtain ⟨k, hk⟩ : ∃ k, w / 4096 = k := ⟨_, rfl⟩
  rw [hk] at hop hlt
  unfold DisassembleInstruction inTable
  simp only [hop, hk, Low_Nibble_eq, Byte_eq]
  interval_cases k
  case «8» =>
    have hl : w % 16 < 16 := by omega
    obtain ⟨l, hl2⟩ : ∃ l, w % 16 = l := ⟨_, rfl⟩
    rw [hl2] at hl ⊢
    interval_cases l <;> simp
  case «14» =>
    simp only []
    split <;> simp_all
  case «15» =>
    simp only []
    split <;> simp_all
  case «0» =>
    simp only []
    split_ifs <;> simp
  all_goals simp

/-! ## The decoder, opcode by opcode, in terms of the bit fields -/

theorem dis_sys (w : Nat) (h : w < 65536) (hop : w / 4096 = 0) :
    DisassembleInstruction w =
      if w / 256 % 16 = 0 ∧ w % 256 = 0xE0 then some "CLS"
      else if w / 256 % 16 = 0 ∧ w % 256 = 0xEE then some "RET"
      else some ("SYS 0x" ++ hex3 (w % 4096)) := by
  have ha : w % 4096 < 4096 := by omega
  unfold DisassembleInstruction
  simp only [Opcode_eq w h, hop, Address_eq, Byte_eq, High_Nibble_eq, fmt03X_eq _ ha]

theorem dis_addr (w : Nat) (h : w < 65536) :
    (w / 4096 = 1 → DisassembleInstruction w = some ("JP 0x" ++ hex3 (w % 4096))) ∧
    (w / 4096 = 2 → DisassembleInstruction w = some ("CALL 0x" ++ hex3 (w % 4096))) ∧
    (w / 4096 = 0xA → DisassembleInstruction w = some ("LD I, 0x" ++ hex3 (w % 4096))) ∧
    (w / 4096 = 0xB → DisassembleInstruction w = some ("JP V0, 0x" ++ hex3 (w % 4096))) := by
  have ha : w % 4096 < 4096 := by omega
  refine ⟨?_, ?_, ?_, ?_⟩ <;> intro hop <;> unfold DisassembleInstruction <;>
    simp only [Opcode_eq w h, hop, Address_eq, fmt03X_eq _ ha]

theorem dis_byte (w : Nat) (h : w < 65536) :
    (w / 4096 = 3 → DisassembleInstruction w = some
      ("SE V" ++ hex1 (w / 256 % 16) ++ ", 0x" ++ hex2 (w % 256) ++ " (" ++ dec (w % 256) ++ ")")) ∧
    (w / 4096 = 4 → DisassembleInstruction w = some
      ("SNE V" ++ hex1 (w / 256 % 16) ++ ", 0x" ++ hex2 (w % 256) ++ " (" ++ dec (w % 256) ++ ")")) ∧
    (w / 4096 = 6 → DisassembleInstruction w = some
      ("LD V" ++ hex1 (w / 256 % 16) ++ ", 0x" ++ hex2 (w % 256) ++ " (" ++ dec (w % 256) ++ ")")) ∧
    (w / 4096 = 7 → DisassembleInstruction w = some
      ("ADD V" ++ hex1 (w / 256 % 16) ++ ", 0x" ++ hex2 (w % 256) ++ " (" ++ dec (w % 256) ++ ")")) ∧
    (w / 4096 = 0xC → DisassembleInstruction w = some
      ("RND V" ++ hex1 (w / 256 % 16) ++ ", 0x" ++ hex2 (w % 256) ++ " (" ++ dec (w % 256) ++ ")")) := by
  have hx : w / 256 % 16 < 16 := by omega
  have hb : w % 256 < 256 := by omega
  refine ⟨?_, ?_, ?_, ?_, ?_⟩ <;> intro hop <;> unfold DisassembleInstruction <;>
    simp only [Opcode_eq w h, hop, Byte_eq, High_Nibble_eq, fmt1X_eq _ hx, fmt02X_eq _ hb,
      fmtd_eq _ hb]

theorem dis_skip (w : Nat) (h : w < 65536) :
    (w / 4096 = 5 → DisassembleInstruction w =
      if w % 16 = 0 then some ("SE V" ++ hex1 (w / 256 % 16) ++ ", V" ++ hex1 (w / 16 % 16))
      else none) ∧
    (w / 4096 = 9 → DisassembleInstruction w =
      if w % 16 = 0 then some ("SNE V" ++ hex1 (w / 256 % 16) ++ ", V" ++ hex1 (w / 16 % 16))
      else none) := by
  have hx : w / 256 % 16 < 16 := by omega
  have hy : w / 16 % 16 < 16 := by omega
  refine ⟨?_, ?_⟩ <;> intro hop <;> unfold DisassembleInstruction <;>
    simp only [Opcode_eq w h, hop, Low_Nibble_eq, Middle_Nibble_eq, High_Nibble_eq,
      fmt1X_eq _ hx, fmt1X_eq _ hy] <;>
    split_ifs <;> simp_all

theorem dis_alu (w : Nat) (h : w < 65536) (hop : w / 4096 = 8) :
    DisassembleInstruction w =
      (aluName (w % 16)).map
        (fun m => m ++ " V" ++ hex1 (w / 256 % 16) ++ ", V" ++ hex1 (w / 16 % 16)) := by
  have hx : w / 256 % 16 < 16 := by omega
  have hy : w / 16 % 16 < 16 := by omega
  have hl : w % 16 < 16 := by omega
  unfold DisassembleInstruction
  simp only [Opcode_eq w h, hop, Low_Nibble_eq, Middle_Nibble_eq, High_Nibble_eq,
    fmt1X_eq _ hx, fmt1X_eq _ hy]
  obtain ⟨l, hl2⟩ : ∃ l, w % 16 = l := ⟨_, rfl⟩
  rw [hl2] at hl ⊢
  interval_cases l <;> simp [aluName]

theorem dis_drw (w : Nat) (h : w < 65536) (hop : w / 4096 = 0xD) :
    DisassembleInstruction w = some
      ("DRW V" ++ hex1 (w / 256 % 16) ++ ", V" ++ hex1 (w / 16 % 16) ++ ", 0x" ++ hex1 (w % 16)) := by
  have hx : w / 256 % 16 < 16 := by omega
  have hy : w / 16 % 16 < 16 := by omega
  have hl : w % 16 < 16 := by omega
  unfold DisassembleInstruction
  simp only [Opcode_eq w h, hop, Low_Nibble_eq, Middle_Nibble_eq, High_Nibble_eq,
    fmt1X_eq _ hx, fmt1X_eq _ hy, fmt1X_eq _ hl]

theorem dis_key (w : Nat) (h : w < 65536) (hop : w / 4096 = 0xE) :
    DisassembleInstruction w =
      if w % 256 = 0x9E then some ("SKP V" ++ hex1 (w / 256 % 16))
      else if w % 256 = 0xA1 then some ("SKNP V" ++ hex1 (w / 256 % 16))
      else none := by
  have hx : w / 256 % 16 < 16 := by omega
  unfold DisassembleInstruction
  simp only [Opcode_eq w h, hop, Byte_eq, High_Nibble_eq, fmt1X_eq _ hx]
  split <;> simp_all

theorem dis_misc (w : Nat) (h : w < 65536) (hop : w / 4096 = 0xF) :
    DisassembleInstruction w =
      if w % 256 = 0x07 then some ("LD V" ++ hex1 (w / 256 % 16) ++ ", DT")
      else if w % 256 = 0x0A then some ("LD V" ++ hex1 (w / 256 % 16) ++ ", K")
      else if w % 256 = 0x15 then some ("LD DT, V" ++ hex1 (w / 256 % 16))
      else if w % 256 = 0x18 then some ("LD ST, V" ++ hex1 (w / 256 % 16))
      else if w % 256 = 0x1E then some ("ADD I, V" ++ hex1 (w / 256 % 16))
      else if w % 256 = 0x29 then some ("LD F, V" ++ hex1 (w / 256 % 16))
      else if w % 256 = 0x33 then some ("LD B, V" ++ hex1 (w / 256 % 16))
      else if w % 256 = 0x55 then some ("LD [I], V" ++ hex1 (w / 256 % 16))
      else if w % 256 = 0x65 then some ("LD V" ++ hex1 (w / 256 % 16) ++ ", [I]")
      else none := by
  have hx : w / 256 % 16 < 16 := by omega
  unfold DisassembleInstruction
  simp only [Opcode_eq w h, hop, Byte_eq, High_Nibble_eq, fmt1X_eq _ hx]
  split <;> simp_all

/-! ## Counting -/

theorem countP_range_chunks (p : Nat → Bool) (m : Nat) (k : Nat) :
    (List.range (m * k)).countP p =
      ((List.range k).map (fun i => (List.range m).countP (fun j => p (m * i + j)))).sum := by
  induction k with
  | zero => simp
  | succ k ih =>
    rw [Nat.mul_succ, List.range_add, List.countP_append, List.countP_map, ih, List.range_succ,
      List.map_append, List.sum_append]
    simp [Function.comp_def]

set_option maxRecDepth 100000 in
theorem count_low_zero : (List.range 4096).countP (fun j => decide (j % 16 = 0)) = 256 := by
  decide!

set_option maxRecDepth 100000 in
theorem count_alu :
    (List.range 4096).countP (fun j => decide (j % 16 = 0 ∨ j % 16 = 1 ∨ j % 16 = 2 ∨
      j % 16 = 3 ∨ j % 16 = 4 ∨ j % 16 = 5 ∨ j % 16 = 6 ∨ j % 16 = 7 ∨ j % 16 = 0xE)) = 2304 := by
  decide!

set_option maxRecDepth 100000 in
theorem count_key :
    (List.range 4096).countP (fun j => decide (j % 256 = 0x9E ∨ j % 256 = 0xA1)) = 32 := by
  decide!

set_option maxRecDepth 100000 in
theorem count_misc :
    (List.range 4096).countP (fun j => decide (j % 256 = 0x07 ∨ j % 256 = 0x0A ∨
      j % 256 = 0x15 ∨ j % 256 = 0x18 ∨ j % 256 = 0x1E ∨ j % 256 = 0x29 ∨ j % 256 = 0x33 ∨
      j % 256 = 0x55 ∨ j % 256 = 0x65)) = 144 := by
  decide!

theorem isSome_chunk (op j : Nat) (hop : op < 16) (hj : j < 4096) :
    (DisassembleInstruction (4096 * op + j)).isSome = true ↔ chunkPred op j := by
  obtain ⟨w, hw⟩ : ∃ w, w = 4096 * op + j := ⟨_, rfl⟩
  have h1 : w / 4096 = op := by omega
  have h2 : w % 16 = j % 16 := by omega
  have h3 : w % 256 = j % 256 := by omega
  rw [← hw, isSome_iff_inTable w (by omega)]
  unfold inTable chunkPred
  rw [h1, h2, h3]
  interval_cases op <;> simp

theorem count_chunk (op : Nat) (hop : op < 16) :
    (List.range 4096).countP (fun j => (DisassembleInstruction (4096 * op + j)).isSome) =
      chunkCount op := by
  have key : ∀ j ∈ List.range 4096,
      ((DisassembleInstruction (4096 * op + j)).isSome = true ↔ chunkPred op j) :=
    fun j hj => isSome_chunk op j hop (List.mem_range.mp hj)
  rcases Nat.lt_or_ge op 16 with _ | _
  · by_cases h5 : op = 5 ∨ op = 9
    · rw [show chunkCount op = 256 by simp [chunkCount, h5], ← count_low_zero]
      apply List.countP_congr
      intro j hj
      rw [key j hj]
      simp [chunkPred, h5]
    · by_cases h8 : op = 8
      · rw [show chunkCount op = 2304 by simp [chunkCount, h8], ← count_alu]
        apply List.countP_congr
        intro j hj
        rw [key j hj]
        simp [chunkPred, h8]
      · by_cases hE : op = 0xE
        · rw [show chunkCount op = 32 by simp [chunkCount, hE], ← count_key]
          apply List.countP_congr
          intro j hj
          rw [key j hj]
          simp [chunkPred, hE]
        · by_cases hF : op = 0xF
          · rw [show chunkCount op = 144 by simp [chunkCount, hF], ← count_misc]
            apply List.countP_congr
            intro j hj
            rw [key j hj]
            simp [chunkPred, hF]
          · rw [show chunkCount op = 4096 by simp [chunkCount, h5, h8, hE, hF]]
            refine (List.countP_eq_length.mpr ?_).trans (List.length_range 4096)
            intro j hj
            rw [key j hj]
            simp [chunkPred, h5, h8, hE, hF]
  · omega

theorem recognizedCount_eq : recognizedCount = 48048 := by
  rw [recognizedCount, show (65536 : Nat) = 4096 * 16 by norm_num, countP_range_chunks,
    List.map_congr_left (fun i hi => count_chunk i (List.mem_range.mp hi))]
  decide

theorem countP_isNone_add_isSome (f : Nat → Option String) (l : List Nat) :
    l.countP (fun w => (f w).isNone) + l.countP (fun w => (f w).isSome) = l.length := by
  induction l with
  | nil => rfl
  | cons a l ih =>
    rw [List.countP_cons, List.countP_cons, List.length_cons]
    cases f a <;> simp <;> omega

theorem count_total : unrecognizedCount + recognizedCount = 65536 := by
  rw [unrecognizedCount, recognizedCount, countP_isNone_add_isSome DisassembleInstruction,
    List.length_range]

theorem complement_count (a b : Nat) (h : a + b = 65536) (hb : b = 48048) : a = 17488 := by
  omega

theorem unrecognizedCount_eq : unrecognizedCount = 17488 :=
  complement_count unrecognizedCount recognizedCount count_total recognizedCount_eq

/-! ## Properties of the decoder -/

/-- C1: for every 16-bit word the decoder reports success exactly for the words of the
opcode table (opcodes 0,1,2,3,4,6,7,A,B,C,D; opcodes 5 and 9 with low nibble 0; opcode 8
with low nibble in 0..7 or E; opcode E with low byte 9E or A1; opcode F with low byte in
07,0A,15,18,1E,29,33,55,65), and reports `Unrecognized` for every other word. -/
theorem recognized_iff_inTable (w : Nat) (h : w < 65536) :
    ((DisassembleInstruction w).isSome = true ↔ inTable w) ∧
    (DisassembleInstruction w = none ↔ ¬ inTable w) := by
  have h1 := isSome_iff_inTable w h
  refine ⟨h1, ?_⟩
  rw [← h1]
  cases DisassembleInstruction w <;> simp

/-- Instance of C1 at the word `0x8E08`. -/
theorem recognized_iff_inTable_witness :
    0x8E08 < 65536 ∧
    (((DisassembleInstruction 0x8E08).isSome = true ↔ inTable 0x8E08) ∧
     (DisassembleInstruction 0x8E08 = none ↔ ¬ inTable 0x8E08)) :=
  ⟨by decide, recognized_iff_inTable 0x8E08 (by decide)⟩

/-- C2 (as stated, refuted): the low byte alone does not select `CLS` and `RET` under
opcode 0; the word `0x01E0` has low byte `0xE0` and decodes to `SYS 0x1E0`. -/
theorem low_byte_alone_does_not_select_cls :
    ¬ (∀ w : Nat, w < 65536 → w / 4096 = 0 →
        DisassembleInstruction w =
          if w % 256 = 0xE0 then some "CLS"
          else if w % 256 = 0xEE then some "RET"
          else some ("SYS 0x" ++ hex3 (w % 4096))) := by
  intro hall
  have h := hall 0x01E0 (by decide) (by decide)
  revert h
  decide

/-- C2 (amended): under opcode 0 the decoder returns `CLS` when bits 11-8 are zero and
the low byte is `0xE0`, `RET` when bits 11-8 are zero and the low byte is `0xEE`, and
otherwise `SYS 0x` followed by the 12-bit address as three uppercase hex digits. -/
theorem opcode0_cls_ret_sys (w : Nat) (h : w < 65536) (hop : w / 4096 = 0) :
    DisassembleInstruction w =
      (if w / 256 % 16 = 0 ∧ w % 256 = 0xE0 then some "CLS"
       else if w / 256 % 16 = 0 ∧ w % 256 = 0xEE then some "RET"
       else some ("SYS 0x" ++ hex3 (w % 4096))) ∧
    (hex3 (w % 4096)).length = 3 ∧
    valueIn 16 (hex3 (w % 4096)) = some (w % 4096) :=
  ⟨dis_sys w h hop, rfl, valueIn_hex3 _ (by omega)⟩

/-- Instance of the amended C2 at the word `0x01E0`. -/
theorem opcode0_cls_ret_sys_witness :
    0x01E0 < 65536 ∧ 0x01E0 / 4096 = 0 ∧
    (DisassembleInstruction 0x01E0 =
      (if 0x01E0 / 256 % 16 = 0 ∧ 0x01E0 % 256 = 0xE0 then some "CLS"
       else if 0x01E0 / 256 % 16 = 0 ∧ 0x01E0 % 256 = 0xEE then some "RET"
       else some ("SYS 0x" ++ hex3 (0x01E0 % 4096))) ∧
    (hex3 (0x01E0 % 4096)).length = 3 ∧
    valueIn 16 (hex3 (0x01E0 % 4096)) = some (0x01E0 % 4096)) :=
  ⟨by decide, by decide, opcode0_cls_ret_sys 0x01E0 (by decide) (by decide)⟩

/-- C3: for opcodes 1, 2, A and B the decoder returns `JP `, `CALL `, `LD I, ` and
`JP V0, ` respectively, followed by `0x` and exactly three uppercase hexadecimal digits
whose value is the 12-bit address `w mod 4096`. -/
theorem address_forms (w : Nat) (h : w < 65536) :
    (w / 4096 = 1 → DisassembleInstruction w = some ("JP 0x" ++ hex3 (w % 4096))) ∧
    (w / 4096 = 2 → DisassembleInstruction w = some ("CALL 0x" ++ hex3 (w % 4096))) ∧
    (w / 4096 = 0xA → DisassembleInstruction w = some ("LD I, 0x" ++ hex3 (w % 4096))) ∧
    (w / 4096 = 0xB → DisassembleInstruction w = some ("JP V0, 0x" ++ hex3 (w % 4096))) ∧
    (hex3 (w % 4096)).length = 3 ∧
    valueIn 16 (hex3 (w % 4096)) = some (w % 4096) := by
  obtain ⟨h1, h2, h3, h4⟩ := dis_addr w h
  exact ⟨h1, h2, h3, h4, rfl, valueIn_hex3 _ (by omega)⟩

/-- Instance of C3 at the word `0xB2F0`. -/
theorem address_forms_witness :
    0xB2F0 < 65536 ∧
    ((0xB2F0 / 4096 = 1 → DisassembleInstruction 0xB2F0 = some ("JP 0x" ++ hex3 (0xB2F0 % 4096))) ∧
    (0xB2F0 / 4096 = 2 →
      DisassembleInstruction 0xB2F0 = some ("CALL 0x" ++ hex3 (0xB2F0 % 4096))) ∧
    (0xB2F0 / 4096 = 0xA →
      DisassembleInstruction 0xB2F0 = some ("LD I, 0x" ++ hex3 (0xB2F0 % 4096))) ∧
    (0xB2F0 / 4096 = 0xB →
      DisassembleInstruction 0xB2F0 = some ("JP V0, 0x" ++ hex3 (0xB2F0 % 4096))) ∧
    (hex3 (0xB2F0 % 4096)).length = 3 ∧
    valueIn 16 (hex3 (0xB2F0 % 4096)) = some (0xB2F0 % 4096)) :=
  ⟨by decide, address_forms 0xB2F0 (by decide)⟩

/-- C4: for opcodes 3, 4, 6, 7 and C the decoder returns `<M> V<x>, 0x<BB> (<d>)` with M
the mnemonic SE, SNE, LD, ADD or RND, x the hex digit of bits 11-8, BB the low byte as
exactly two uppercase hex digits and d its unpadded decimal rendering; BB and d denote
the same number, the low byte. -/
theorem byte_forms (w : Nat) (h : w < 65536) :
    (w / 4096 = 3 → DisassembleInstruction w = some
      ("SE V" ++ hex1 (w / 256 % 16) ++ ", 0x" ++ hex2 (w % 256) ++ " (" ++ dec (w % 256) ++ ")")) ∧
    (w / 4096 = 4 → DisassembleInstruction w = some
      ("SNE V" ++ hex1 (w / 256 % 16) ++ ", 0x" ++ hex2 (w % 256) ++ " (" ++ dec (w % 256) ++ ")")) ∧
    (w / 4096 = 6 → DisassembleInstruction w = some
      ("LD V" ++ hex1 (w / 256 % 16) ++ ", 0x" ++ hex2 (w % 256) ++ " (" ++ dec (w % 256) ++ ")")) ∧
    (w / 4096 = 7 → DisassembleInstruction w = some
      ("ADD V" ++ hex1 (w / 256 % 16) ++ ", 0x" ++ hex2 (w % 256) ++ " (" ++ dec (w % 256) ++ ")")) ∧
    (w / 4096 = 0xC → DisassembleInstruction w = some
      ("RND V" ++ hex1 (w / 256 % 16) ++ ", 0x" ++ hex2 (w % 256) ++ " (" ++ dec (w % 256) ++ ")")) ∧
    (hex1 (w / 256 % 16)).length = 1 ∧
    valueIn 16 (hex1 (w / 256 % 16)) = some (w / 256 % 16) ∧
    (hex2 (w % 256)).length = 2 ∧
    valueIn 16 (hex2 (w % 256)) = some (w % 256) ∧
    valueIn 10 (dec (w % 256)) = some (w % 256) ∧
    (dec (w % 256)).length = (if w % 256 < 10 then 1 else if w % 256 < 100 then 2 else 3) := by
  obtain ⟨h1, h2, h3, h4, h5⟩ := dis_byte w h
  refine ⟨h1, h2, h3, h4, h5, rfl, valueIn_hex1 _ (by omega), rfl, valueIn_hex2 _ (by omega),
    valueIn_dec _ (by omega), ?_⟩
  unfold dec
  split_ifs <;> rfl

/-- Instance of C4 at the word `0x6A05`. -/
theorem byte_forms_witness :
    0x6A05 < 65536 ∧
    ((0x6A05 / 4096 = 3 → DisassembleInstruction 0x6A05 = some
      ("SE V" ++ hex1 (0x6A05 / 256 % 16) ++ ", 0x" ++ hex2 (0x6A05 % 256) ++ " (" ++
        dec (0x6A05 % 256) ++ ")")) ∧
    (0x6A05 / 4096 = 4 → DisassembleInstruction 0x6A05 = some
      ("SNE V" ++ hex1 (0x6A05 / 256 % 16) ++ ", 0x" ++ hex2 (0x6A05 % 256) ++ " (" ++
        dec (0x6A05 % 256) ++ ")")) ∧
    (0x6A05 / 4096 = 6 → DisassembleInstruction 0x6A05 = some
      ("LD V" ++ hex1 (0x6A05 / 256 % 16) ++ ", 0x" ++ hex2 (0x6A05 % 256) ++ " (" ++
        dec (0x6A05 % 256) ++ ")")) ∧
    (0x6A05 / 4096 = 7 → DisassembleInstruction 0x6A05 = some
      ("ADD V" ++ hex1 (0x6A05 / 256 % 16) ++ ", 0x" ++ hex2 (0x6A05 % 256) ++ " (" ++
        dec (0x6A05 % 256) ++ ")")) ∧
    (0x6A05 / 4096 = 0xC → DisassembleInstruction 0x6A05 = some
      ("RND V" ++ hex1 (0x6A05 / 256 % 16) ++ ", 0x" ++ hex2 (0x6A05 % 256) ++ " (" ++
        dec (0x6A05 % 256) ++ ")")) ∧
    (hex1 (0x6A05 / 256 % 16)).length = 1 ∧
    valueIn 16 (hex1 (0x6A05 / 256 % 16)) = some (0x6A05 / 256 % 16) ∧
    (hex2 (0x6A05 % 256)).length = 2 ∧
    valueIn 16 (hex2 (0x6A05 % 256)) = some (0x6A05 % 256) ∧
    valueIn 10 (dec (0x6A05 % 256)) = some (0x6A05 % 256) ∧
    (dec (0x6A05 % 256)).length =
      (if 0x6A05 % 256 < 10 then 1 else if 0x6A05 % 256 < 100 then 2 else 3)) :=
  ⟨by decide, byte_forms 0x6A05 (by decide)⟩

/-- C5: for register indices x, y and a low nibble n, all below 16: `5xyn` and `9xyn`
decode to `SE Vx, Vy` and `SNE Vx, Vy` when n = 0 and are unrecognized otherwise; `8xyn`
decodes to `<M> Vx, Vy` with M = LD, OR, AND, XOR, ADD, SUB, SHR, SUBN for n = 0..7 and
SHL for n = E, and is unrecognized for n in 8,9,A,B,C,D,F; `Dxyn` decodes to
`DRW Vx, Vy, 0xn`. -/
theorem register_forms (x y n : Nat) (hx : x < 16) (hy : y < 16) (hn : n < 16) :
    DisassembleInstruction (0x5000 + 256 * x + 16 * y + n) =
      (if n = 0 then some ("SE V" ++ hex1 x ++ ", V" ++ hex1 y) else none) ∧
    DisassembleInstruction (0x9000 + 256 * x + 16 * y + n) =
      (if n = 0 then some ("SNE V" ++ hex1 x ++ ", V" ++ hex1 y) else none) ∧
    (n = 0 → DisassembleInstruction (0x8000 + 256 * x + 16 * y + n) =
      some ("LD V" ++ hex1 x ++ ", V" ++ hex1 y)) ∧
    (n = 1 → DisassembleInstruction (0x8000 + 256 * x + 16 * y + n) =
      some ("OR V" ++ hex1 x ++ ", V" ++ hex1 y)) ∧
    (n = 2 → DisassembleInstruction (0x8000 + 256 * x + 16 * y + n) =
      some ("AND V" ++ hex1 x ++ ", V" ++ hex1 y)) ∧
    (n = 3 → DisassembleInstruction (0x8000 + 256 * x + 16 * y + n) =
      some ("XOR V" ++ hex1 x ++ ", V" ++ hex1 y)) ∧
    (n = 4 → DisassembleInstruction (0x8000 + 256 * x + 16 * y + n) =
      some ("ADD V" ++ hex1 x ++ ", V" ++ hex1 y)) ∧
    (n = 5 → DisassembleInstruction (0x8000 + 256 * x + 16 * y + n) =
      some ("SUB V" ++ hex1 x ++ ", V" ++ hex1 y)) ∧
    (n = 6 → DisassembleInstruction (0x8000 + 256 * x + 16 * y + n) =
      some ("SHR V" ++ hex1 x ++ ", V" ++ hex1 y)) ∧
    (n = 7 → DisassembleInstruction (0x8000 + 256 * x + 16 * y + n) =
      some ("SUBN V" ++ hex1 x ++ ", V" ++ hex1 y)) ∧
    (n = 0xE → DisassembleInstruction (0x8000 + 256 * x + 16 * y + n) =
      some ("SHL V" ++ hex1 x ++ ", V" ++ hex1 y)) ∧
    (n = 8 ∨ n = 9 ∨ n = 0xA ∨ n = 0xB ∨ n = 0xC ∨ n = 0xD ∨ n = 0xF →
      DisassembleInstruction (0x8000 + 256 * x + 16 * y + n) = none) ∧
    DisassembleInstruction (0xD000 + 256 * x + 16 * y + n) =
      some ("DRW V" ++ hex1 x ++ ", V" ++ hex1 y ++ ", 0x" ++ hex1 n) ∧
    (hex1 x).length = 1 ∧ valueIn 16 (hex1 x) = some x ∧
    (hex1 y).length = 1 ∧ valueIn 16 (hex1 y) = some y ∧
    (hex1 n).length = 1 ∧ valueIn 16 (hex1 n) = some n := by
  have fields : ∀ op : Nat, op < 16 → ∀ w : Nat, w = 4096 * op + 256 * x + 16 * y + n →
      w < 65536 ∧ w / 4096 = op ∧ w / 256 % 16 = x ∧ w / 16 % 16 = y ∧ w % 16 = n := by
    intro op hop w hw
    omega
  have e5 : DisassembleInstruction (0x5000 + 256 * x + 16 * y + n) =
      (if n = 0 then some ("SE V" ++ hex1 x ++ ", V" ++ hex1 y) else none) := by
    obtain ⟨a, b, c, d, e⟩ := fields 5 (by decide) (0x5000 + 256 * x + 16 * y + n) (by omega)
    rw [(dis_skip _ a).1 b, c, d, e]
  have e9 : DisassembleInstruction (0x9000 + 256 * x + 16 * y + n) =
      (if n = 0 then some ("SNE V" ++ hex1 x ++ ", V" ++ hex1 y) else none) := by
    obtain ⟨a, b, c, d, e⟩ := fields 9 (by decide) (0x9000 + 256 * x + 16 * y + n) (by omega)
    rw [(dis_skip _ a).2 b, c, d, e]
  have e8 : DisassembleInstruction (0x8000 + 256 * x + 16 * y + n) =
      (aluName n).map (fun m => m ++ " V" ++ hex1 x ++ ", V" ++ hex1 y) := by
    obtain ⟨a, b, c, d, e⟩ := fields 8 (by decide) (0x8000 + 256 * x + 16 * y + n) (by omega)
    rw [dis_alu _ a b, c, d, e]
  have eD : DisassembleInstruction (0xD000 + 256 * x + 16 * y + n) =
      some ("DRW V" ++ hex1 x ++ ", V" ++ hex1 y ++ ", 0x" ++ hex1 n) := by
    obtain ⟨a, b, c, d, e⟩ := fields 13 (by decide) (0xD000 + 256 * x + 16 * y + n) (by omega)
    rw [dis_drw _ a b, c, d, e]
  refine ⟨e5, e9, ?_, ?_, ?_, ?_, ?_, ?_, ?_, ?_, ?_, ?_, eD, rfl, valueIn_hex1 x hx, rfl,
    valueIn_hex1 y hy, rfl, valueIn_hex1 n hn⟩
  all_goals
    intro h0
    rw [e8]
  · subst h0; rfl
  · subst h0; rfl
  · subst h0; rfl
  · subst h0; rfl
  · subst h0; rfl
  · subst h0; rfl
  · subst h0; rfl
  · subst h0; rfl
  · subst h0; rfl
  · rcases h0 with h0 | h0 | h0 | h0 | h0 | h0 | h0 <;> subst h0 <;> rfl

/-- Instance of C5 at x = 1, y = 2, n = 15. -/
theorem register_forms_witness :
    1 < 16 ∧ 2 < 16 ∧ 15 < 16 ∧
    (DisassembleInstruction (0x5000 + 256 * 1 + 16 * 2 + 15) =
      (if 15 = 0 then some ("SE V" ++ hex1 1 ++ ", V" ++ hex1 2) else none) ∧
    DisassembleInstruction (0x9000 + 256 * 1 + 16 * 2 + 15) =
      (if 15 = 0 then some ("SNE V" ++ hex1 1 ++ ", V" ++ hex1 2) else none) ∧
    (15 = 0 → DisassembleInstruction (0x8000 + 256 * 1 + 16 * 2 + 15) =
      some ("LD V" ++ hex1 1 ++ ", V" ++ hex1 2)) ∧
    (15 = 1 → DisassembleInstruction (0x8000 + 256 * 1 + 16 * 2 + 15) =
      some ("OR V" ++ hex1 1 ++ ", V" ++ hex1 2)) ∧
    (15 = 2 → DisassembleInstruction (0x8000 + 256 * 1 + 16 * 2 + 15) =
      some ("AND V" ++ hex1 1 ++ ", V" ++ hex1 2)) ∧
    (15 = 3 → DisassembleInstruction (0x8000 + 256 * 1 + 16 * 2 + 15) =
      some ("XOR V" ++ hex1 1 ++ ", V" ++ hex1 2)) ∧
    (15 = 4 → DisassembleInstruction (0x8000 + 256 * 1 + 16 * 2 + 15) =
      some ("ADD V" ++ hex1 1 ++ ", V" ++ hex1 2)) ∧
    (15 = 5 → DisassembleInstruction (0x8000 + 256 * 1 + 16 * 2 + 15) =
      some ("SUB V" ++ hex1 1 ++ ", V" ++ hex1 2)) ∧
    (15 = 6 → DisassembleInstruction (0x8000 + 256 * 1 + 16 * 2 + 15) =
      some ("SHR V" ++ hex1 1 ++ ", V" ++ hex1 2)) ∧
    (15 = 7 → DisassembleInstruction (0x8000 + 256 * 1 + 16 * 2 + 15) =
      some ("SUBN V" ++ hex1 1 ++ ", V" ++ hex1 2)) ∧
    (15 = 0xE → DisassembleInstruction (0x8000 + 256 * 1 + 16 * 2 + 15) =
      some ("SHL V" ++ hex1 1 ++ ", V" ++ hex1 2)) ∧
    (15 = 8 ∨ 15 = 9 ∨ 15 = 0xA ∨ 15 = 0xB ∨ 15 = 0xC ∨ 15 = 0xD ∨ 15 = 0xF →
      DisassembleInstruction (0x8000 + 256 * 1 + 16 * 2 + 15) = none) ∧
    DisassembleInstruction (0xD000 + 256 * 1 + 16 * 2 + 15) =
      some ("DRW V" ++ hex1 1 ++ ", V" ++ hex1 2 ++ ", 0x" ++ hex1 15) ∧
    (hex1 1).length = 1 ∧ valueIn 16 (hex1 1) = some 1 ∧
    (hex1 2).length = 1 ∧ valueIn 16 (hex1 2) = some 2 ∧
    (hex1 15).length = 1 ∧ valueIn 16 (hex1 15) = some 15) :=
  ⟨by decide, by decide, by decide, register_forms 1 2 15 (by decide) (by decide) (by decide)⟩

/-- C6: for a register index x below 16 and a low byte b: `Exb` decodes to `SKP Vx` for
b = 9E, to `SKNP Vx` for b = A1 and is unrecognized for every other b; `Fxb` decodes to
`LD Vx, DT`, `LD Vx, K`, `LD DT, Vx`, `LD ST, Vx`, `ADD I, Vx`, `LD F, Vx`, `LD B, Vx`,
`LD [I], Vx`, `LD Vx, [I]` for b = 07, 0A, 15, 18, 1E, 29, 33, 55, 65 and is unrecognized
for every other b; x is the only operand and renders as one hex digit. -/
theorem key_and_misc_forms (x b : Nat) (hx : x < 16) (hb : b < 256) :
    DisassembleInstruction (0xE000 + 256 * x + b) =
      (if b = 0x9E then some ("SKP V" ++ hex1 x)
       else if b = 0xA1 then some ("SKNP V" ++ hex1 x)
       else none) ∧
    DisassembleInstruction (0xF000 + 256 * x + b) =
      (if b = 0x07 then some ("LD V" ++ hex1 x ++ ", DT")
       else if b = 0x0A then some ("LD V" ++ hex1 x ++ ", K")
       else if b = 0x15 then some ("LD DT, V" ++ hex1 x)
       else if b = 0x18 then some ("LD ST, V" ++ hex1 x)
       else if b = 0x1E then some ("ADD I, V" ++ hex1 x)
       else if b = 0x29 then some ("LD F, V" ++ hex1 x)
       else if b = 0x33 then some ("LD B, V" ++ hex1 x)
       else if b = 0x55 then some ("LD [I], V" ++ hex1 x)
       else if b = 0x65 then some ("LD V" ++ hex1 x ++ ", [I]")
       else none) ∧
    (hex1 x).length = 1 ∧ valueIn 16 (hex1 x) = some x := by
  have fields : ∀ op : Nat, op < 16 → ∀ w : Nat, w = 4096 * op + 256 * x + b →
      w < 65536 ∧ w / 4096 = op ∧ w / 256 % 16 = x ∧ w % 256 = b := by
    intro op hop w hw
    omega
  refine ⟨?_, ?_, rfl, valueIn_hex1 x hx⟩
  · obtain ⟨a, c, d, e⟩ := fields 14 (by decide) (0xE000 + 256 * x + b) (by omega)
    rw [dis_key _ a c, d, e]
  · obtain ⟨a, c, d, e⟩ := fields 15 (by decide) (0xF000 + 256 * x + b) (by omega)
    rw [dis_misc _ a c, d, e]

/-- Instance of C6 at x = 10 and low byte `0x1E`. -/
theorem key_and_misc_forms_witness :
    10 < 16 ∧ 0x1E < 256 ∧
    (DisassembleInstruction (0xE000 + 256 * 10 + 0x1E) =
      (if 0x1E = 0x9E then some ("SKP V" ++ hex1 10)
       else if 0x1E = 0xA1 then some ("SKNP V" ++ hex1 10)
       else none) ∧
    DisassembleInstruction (0xF000 + 256 * 10 + 0x1E) =
      (if 0x1E = 0x07 then some ("LD V" ++ hex1 10 ++ ", DT")
       else if 0x1E = 0x0A then some ("LD V" ++ hex1 10 ++ ", K")
       else if 0x1E = 0x15 then some ("LD DT, V" ++ hex1 10)
       else if 0x1E = 0x18 then some ("LD ST, V" ++ hex1 10)
       else if 0x1E = 0x1E then some ("ADD I, V" ++ hex1 10)
       else if 0x1E = 0x29 then some ("LD F, V" ++ hex1 10)
       else if 0x1E = 0x33 then some ("LD B, V" ++ hex1 10)
       else if 0x1E = 0x55 then some ("LD [I], V" ++ hex1 10)
       else if 0x1E = 0x65 then some ("LD V" ++ hex1 10 ++ ", [I]")
       else none) ∧
    (hex1 10).length = 1 ∧ valueIn 16 (hex1 10) = some 10) :=
  ⟨by decide, by decide, key_and_misc_forms 10 0x1E (by decide) (by decide)⟩

/-- C7 (as stated, refuted): not every listed low byte under opcode F yields a text
beginning with `LD `; the word `0xF01E` decodes to `ADD I, V0`. -/
theorem misc_family_not_all_ld :
    ¬ (∀ w : Nat, w < 65536 → w / 4096 = 0xF →
        (w % 256 = 0x07 ∨ w % 256 = 0x0A ∨ w % 256 = 0x15 ∨ w % 256 = 0x18 ∨
          w % 256 = 0x1E ∨ w % 256 = 0x29 ∨ w % 256 = 0x33 ∨ w % 256 = 0x55 ∨
          w % 256 = 0x65) →
        ∃ rest : String, DisassembleInstruction w = some ("LD " ++ rest)) := by
  intro hall
  obtain ⟨rest, h⟩ := hall 0xF01E (by decide) (by decide) (by decide)
  have h1 : DisassembleInstruction 0xF01E = some "ADD I, V0" := by decide
  rw [h1] at h
  have h2 := congrArg String.data (Option.some.inj h)
  rw [String.data_append] at h2
  have h3 := congrArg List.head? h2
  have h4 : ("LD ".data ++ rest.data).head? = some 'L' := rfl
  rw [h4] at h3
  revert h3
  decide

/-- C7 (amended): under opcode F the low bytes 07, 0A, 15, 18, 29, 33, 55 and 65 yield
a text beginning with `LD `, and the low byte 1E yields `ADD I, Vx`. -/
theorem misc_family_ld_or_add (w : Nat) (h : w < 65536) (hop : w / 4096 = 0xF) :
    ((w % 256 = 0x07 ∨ w % 256 = 0x0A ∨ w % 256 = 0x15 ∨ w % 256 = 0x18 ∨
        w % 256 = 0x29 ∨ w % 256 = 0x33 ∨ w % 256 = 0x55 ∨ w % 256 = 0x65) →
      ∃ rest : String, DisassembleInstruction w = some ("LD " ++ rest)) ∧
    (w % 256 = 0x1E → DisassembleInstruction w = some ("ADD I, V" ++ hex1 (w / 256 % 16))) := by
  have hd := dis_misc w h hop
  constructor
  · intro hb
    rcases hb with hb | hb | hb | hb | hb | hb | hb | hb
    · exact ⟨"V" ++ hex1 (w / 256 % 16) ++ ", DT", by rw [hd, hb]; rfl⟩
    · exact ⟨"V" ++ hex1 (w / 256 % 16) ++ ", K", by rw [hd, hb]; rfl⟩
    · exact ⟨"DT, V" ++ hex1 (w / 256 % 16), by rw [hd, hb]; rfl⟩
    · exact ⟨"ST, V" ++ hex1 (w / 256 % 16), by rw [hd, hb]; rfl⟩
    · exact ⟨"F, V" ++ hex1 (w / 256 % 16), by rw [hd, hb]; rfl⟩
    · exact ⟨"B, V" ++ hex1 (w / 256 % 16), by rw [hd, hb]; rfl⟩
    · exact ⟨"[I], V" ++ hex1 (w / 256 % 16), by rw [hd, hb]; rfl⟩
    · exact ⟨"V" ++ hex1 (w / 256 % 16) ++ ", [I]", by rw [hd, hb]; rfl⟩
  · intro hb
    rw [hd, hb]
    rfl

/-- Instance of the amended C7 at the word `0xF31E`. -/
theorem misc_family_ld_or_add_witness :
    0xF31E < 65536 ∧ 0xF31E / 4096 = 0xF ∧
    (((0xF31E % 256 = 0x07 ∨ 0xF31E % 256 = 0x0A ∨ 0xF31E % 256 = 0x15 ∨ 0xF31E % 256 = 0x18 ∨
        0xF31E % 256 = 0x29 ∨ 0xF31E % 256 = 0x33 ∨ 0xF31E % 256 = 0x55 ∨
        0xF31E % 256 = 0x65) →
      ∃ rest : String, DisassembleInstruction 0xF31E = some ("LD " ++ rest)) ∧
    (0xF31E % 256 = 0x1E →
      DisassembleInstruction 0xF31E = some ("ADD I, V" ++ hex1 (0xF31E / 256 % 16)))) :=
  ⟨by decide, by decide, misc_family_ld_or_add 0xF31E (by decide) (by decide)⟩

/-- C8: the known vectors: `0x00E0` decodes to `CLS`, `0x00EE` to `RET`, `0x1234` to
`JP 0x234`, `0x6A05` to `LD VA, 0x05 (5)` and `0xD12F` to `DRW V1, V2, 0xF`. -/
theorem known_vectors :
    DisassembleInstruction 0x00E0 = some "CLS" ∧
    DisassembleInstruction 0x00EE = some "RET" ∧
    DisassembleInstruction 0x1234 = some "JP 0x234" ∧
    DisassembleInstruction 0x6A05 = some "LD VA, 0x05 (5)" ∧
    DisassembleInstruction 0xD12F = some "DRW V1, V2, 0xF" := by
  refine ⟨?_, ?_, ?_, ?_, ?_⟩ <;> decide

/-- C9 (as stated, refuted): the word `0x8E04` is not unrecognized. -/
theorem word_8E04_not_unrecognized : DisassembleInstruction 0x8E04 ≠ none := by
  decide

/-- C9 (amended): the word `0x8E04` has opcode 8 and low nibble 4, and decodes to
`ADD VE, V0`. -/
theorem word_8E04_is_add :
    Opcode 0x8E04 = 8 ∧ Low_Nibble 0x8E04 = 4 ∧
    DisassembleInstruction 0x8E04 = some "ADD VE, V0" := by
  refine ⟨?_, ?_, ?_⟩ <;> decide

theorem not_lt_of_eq_17488 (a : Nat) (h : a = 17488) : ¬ (32768 < a) := by
  omega

theorem minority_of_counts (a b : Nat) (ha : a = 17488) (hb : b = 48048) :
    a < 32768 ∧ a < b := by
  omega

/-- C10 (as stated, refuted): the unrecognized words are not more than half of the
65536 words. -/
theorem unrecognized_not_majority : ¬ (32768 < unrecognizedCount) :=
  not_lt_of_eq_17488 unrecognizedCount unrecognizedCount_eq

/-- C10 (amended): of the 65536 words exactly 17488 decode to `Unrecognized` and 48048
to a recognized instruction, so the unrecognized words are fewer than 32768 and fewer
than the recognized ones. -/
theorem unrecognized_minority :
    unrecognizedCount = 17488 ∧ recognizedCount = 48048 ∧
    unrecognizedCount < 32768 ∧ unrecognizedCount < recognizedCount :=
  ⟨unrecognizedCount_eq, recognizedCount_eq,
    minority_of_counts unrecognizedCount recognizedCount unrecognizedCount_eq recognizedCount_eq⟩

/-! ## Lemmas on the conversions, any number of digits -/

theorem digitsCore_eq (b : Nat) (hb2 : 2 ≤ b) (n : Nat) :
    ∀ fuel acc, n < fuel → digitsCore b fuel n acc = digitsOf b n ++ acc := by
  induction n using Nat.strong_induction_on with
  | _ n ih =>
    intro fuel acc hf
    obtain ⟨f, rfl⟩ : ∃ f, fuel = f + 1 := ⟨fuel - 1, by omega⟩
    by_cases hb : n < b
    · simp [digitsOf, digitsCore, hb]
    · have hdiv : n / b < n := Nat.div_lt_self (by omega) (by omega)
      have h1 : digitsCore b (f + 1) n acc =
          digitsCore b f (n / b) (digitChar (n % b) :: acc) := by
        simp [digitsCore, hb]
      have h2 : digitsOf b n = digitsCore b n (n / b) [digitChar (n % b)] := by
        simp [digitsOf, digitsCore, hb]
      rw [h1, h2, ih (n / b) hdiv f _ (by omega), ih (n / b) hdiv n _ hdiv]
      simp

theorem digitsOf_step (b : Nat) (hb2 : 2 ≤ b) (n : Nat) (hb : b ≤ n) :
    digitsOf b n = digitsOf b (n / b) ++ [digitChar (n % b)] := by
  have hdiv : n / b < n := Nat.div_lt_self (by omega) (by omega)
  have h2 : digitsOf b n = digitsCore b n (n / b) [digitChar (n % b)] := by
    have : ¬ n < b := by omega
    simp [digitsOf, digitsCore, this]
  rw [h2, digitsCore_eq b hb2 (n / b) n _ hdiv]

theorem digitsOf_length_pos (b : Nat) (hb2 : 2 ≤ b) (n : Nat) : 0 < (digitsOf b n).length := by
  by_cases hb : n < b
  · simp [digitsOf_lt b n hb]
  · rw [digitsOf_step b hb2 n (by omega)]
    simp

theorem valueIn_eq_foldl (base : Nat) (cs : List Char) (h : cs ≠ []) :
    valueIn base (String.mk cs) = cs.foldl (valueStep base) (some 0) := by
  cases cs with
  | nil => exact absurd rfl h
  | cons c cs => rfl

theorem foldl_digitsOf (b : Nat) (hb2 : 2 ≤ b) (hb16 : b ≤ 16) (n : Nat) :
    (digitsOf b n).foldl (valueStep b) (some 0) = some n := by
  induction n using Nat.strong_induction_on with
  | _ n ih =>
    by_cases hb : n < b
    · rw [digitsOf_lt b n hb]
      simp [valueStep, charValue_digitChar n (by omega), hb]
    · have hdiv : n / b < n := Nat.div_lt_self (by omega) (by omega)
      have hm : n % b < b := Nat.mod_lt _ (by omega)
      rw [digitsOf_step b hb2 n (by omega), List.foldl_append, ih (n / b) hdiv]
      simp [valueStep, charValue_digitChar (n % b) (by omega), hm]
      exact Nat.div_add_mod' n b

theorem foldl_zeroPad (b : Nat) (hb : 0 < b) (k : Nat) (cs : List Char) :
    (List.replicate k '0' ++ cs).foldl (valueStep b) (some 0) =
      cs.foldl (valueStep b) (some 0) := by
  induction k with
  | zero => simp
  | succ k ih =>
    rw [List.replicate_succ, List.cons_append, List.foldl_cons]
    have : valueStep b (some 0) '0' = some 0 := by
      have h0 : charValue '0' = some 0 := by decide
      simp [valueStep, h0, hb]
    rw [this, ih]

theorem valueIn_zeroPad (width n : Nat) :
    valueIn 16 (String.mk (zeroPad width (digitsOf 16 n))) = some n := by
  have hpos := digitsOf_length_pos 16 (by decide) n
  have hne : zeroPad width (digitsOf 16 n) ≠ [] := by
    intro h
    have h1 := congrArg List.length h
    rw [zeroPad, List.length_append, List.length_nil] at h1
    omega
  rw [valueIn_eq_foldl 16 _ hne, zeroPad, foldl_zeroPad 16 (by decide),
    foldl_digitsOf 16 (by decide) (by decide)]

theorem valueIn_fmt03X (n : Nat) : valueIn 16 (fmt03X n) = some n :=
  valueIn_zeroPad 3 n

theorem valueIn_fmt04X (n : Nat) : valueIn 16 (fmt04X n) = some n :=
  valueIn_zeroPad 4 n

theorem length_zeroPad (width : Nat) (cs : List Char) :
    (zeroPad width cs).length = max width cs.length := by
  simp [zeroPad]
  omega

theorem fmt04X_eq (n : Nat) (h : n < 65536) : fmt04X n = hex4 n := by
  rcases Nat.lt_or_ge n 4096 with h0 | h0
  · have e : fmt04X n = String.mk ('0' :: (fmt03X n).data) := by
      have hl := length_zeroPad 3 (digitsOf 16 n)
      have hle : (digitsOf 16 n).length ≤ 3 := by
        have := fmt03X_eq n h0
        have h3 : (fmt03X n).length = 3 := by rw [this]; rfl
        simp only [fmt03X, String.length] at h3
        omega
      simp only [fmt04X, fmt03X, zeroPad]
      have : 4 - (digitsOf 16 n).length = (3 - (digitsOf 16 n).length) + 1 := by omega
      rw [this, List.replicate_succ]
      rfl
    have hd : n / 4096 = 0 := by omega
    have e3 : n / 256 % 16 = n / 256 := by omega
    rw [e, fmt03X_eq n h0]
    simp only [hex3, hex4, hd, e3]
    rfl
  · have h1 : 16 ≤ n := by omega
    have h2 : 16 ≤ n / 16 := by omega
    have h3 : 16 ≤ n / 16 / 16 := by omega
    have h4 : n / 16 / 16 / 16 < 16 := by omega
    have e1 : n / 16 / 16 / 16 = n / 4096 := by omega
    have e2 : n / 16 / 16 % 16 = n / 256 % 16 := by omega
    simp only [fmt04X, hex4]
    rw [digitsOf_step 16 (by decide) n h1, digitsOf_step 16 (by decide) _ h2,
      digitsOf_step 16 (by decide) _ h3, digitsOf_lt 16 _ h4, e1, e2]
    simp [zeroPad]

theorem valueIn_hex4 (n : Nat) (h : n < 65536) : valueIn 16 (hex4 n) = some n := by
  rw [← fmt04X_eq n h]
  exact valueIn_fmt04X n

/-! ## Lemmas on the driver -/

theorem ntohs_freadInstruction (littleEndian : Bool) (b0 b1 : Fin 256) :
    ntohs littleEndian (freadInstruction littleEndian b0 b1) = 256 * b0.val + b1.val := by
  have h0 := b0.isLt
  have h1 := b1.isLt
  cases littleEndian <;> simp [ntohs, freadInstruction] <;> omega

theorem disassembleLoop_cons (littleEndian : Bool) (b0 b1 : Fin 256) (rest : List (Fin 256))
    (addr : Nat) :
    disassembleLoop littleEndian (b0 :: b1 :: rest) addr =
      printfLine addr (256 * b0.val + b1.val) (textOf (256 * b0.val + b1.val)) ::
        disassembleLoop littleEndian rest ((addr + 1) % 4294967296) := by
  rw [disassembleLoop, ntohs_freadInstruction]
  rfl

theorem disassembleLoop_short (littleEndian : Bool) (bytes : List (Fin 256)) (addr : Nat)
    (h : bytes.length < 2) : disassembleLoop littleEndian bytes addr = [] := by
  match bytes, h with
  | [], _ => rfl
  | [_], _ => rfl
  | _ :: _ :: _, h => simp at h; omega

theorem disassembleLoop_length (littleEndian : Bool) :
    ∀ (bytes : List (Fin 256)) (addr : Nat),
      (disassembleLoop littleEndian bytes addr).length = bytes.length / 2
  | [], _ => by simp [disassembleLoop]
  | [_], _ => by simp [disassembleLoop]
  | b0 :: b1 :: rest, addr => by
    rw [disassembleLoop_cons, List.length_cons, disassembleLoop_length littleEndian rest]
    simp only [List.length_cons]
    omega

theorem wordAt_cons_zero (b0 b1 : Fin 256) (rest : List (Fin 256)) :
    wordAt (b0 :: b1 :: rest) 0 = 256 * b0.val + b1.val := rfl

theorem wordAt_cons_succ (b0 b1 : Fin 256) (rest : List (Fin 256)) (k : Nat) :
    wordAt (b0 :: b1 :: rest) (k + 1) = wordAt rest k := by
  simp only [wordAt]
  have e1 : 2 * (k + 1) = 2 * k + 1 + 1 := by omega
  rw [e1]
  simp only [List.getD_cons_succ]

theorem wordAt_lt (bytes : List (Fin 256)) (k : Nat) : wordAt bytes k < 65536 := by
  have h0 := (bytes.getD (2 * k) 0).isLt
  have h1 := (bytes.getD (2 * k + 1) 0).isLt
  simp only [wordAt]
  omega

theorem disassembleLoop_getElem? (littleEndian : Bool) :
    ∀ (bytes : List (Fin 256)) (addr k : Nat), addr < 4294967296 → k < bytes.length / 2 →
      (disassembleLoop littleEndian bytes addr)[k]? =
        some (printfLine ((addr + k) % 4294967296) (wordAt bytes k) (textOf (wordAt bytes k)))
  | [], _, k, _, h => by
    simp only [List.length_nil] at h
    omega
  | [_], _, k, _, h => by
    simp only [List.length_cons, List.length_nil] at h
    omega
  | b0 :: b1 :: rest, addr, 0, ha, _ => by
    have e : (addr + 0) % 4294967296 = addr := by omega
    rw [disassembleLoop_cons, wordAt_cons_zero, e, List.getElem?_cons_zero]
  | b0 :: b1 :: rest, addr, k + 1, _, h => by
    have hk : k < rest.length / 2 := by
      simp only [List.length_cons] at h
      omega
    have hm : (addr + 1) % 4294967296 < 4294967296 := Nat.mod_lt _ (by decide)
    rw [disassembleLoop_cons, List.getElem?_cons_succ, wordAt_cons_succ,
      disassembleLoop_getElem? littleEndian rest _ k hm hk]
    have : ((addr + 1) % 4294967296 + k) % 4294967296 = (addr + (k + 1)) % 4294967296 := by
      omega
    rw [this]

theorem disassembleLoop_append (littleEndian : Bool) :
    ∀ (A B : List (Fin 256)) (addr : Nat), addr < 4294967296 → A.length % 2 = 0 →
      disassembleLoop littleEndian (A ++ B) addr =
        disassembleLoop littleEndian A addr ++
          disassembleLoop littleEndian B ((addr + A.length / 2) % 4294967296)
  | [], B, addr, ha, _ => by
    have : (addr + ([] : List (Fin 256)).length / 2) % 4294967296 = addr := by
      simp only [List.length_nil]
      omega
    rw [this, List.nil_append, disassembleLoop_short littleEndian [] addr (by decide),
      List.nil_append]
  | [_], _, _, _, h => by simp at h
  | b0 :: b1 :: rest, B, addr, _, h => by
    have hr : rest.length % 2 = 0 := by
      simp only [List.length_cons] at h
      omega
    have hl : (b0 :: b1 :: rest).length / 2 = rest.length / 2 + 1 := by
      simp only [List.length_cons]
      omega
    have hm : (addr + 1) % 4294967296 < 4294967296 := Nat.mod_lt _ (by decide)
    rw [List.cons_append, List.cons_append, disassembleLoop_cons, disassembleLoop_cons,
      disassembleLoop_append littleEndian rest B _ hm hr, hl, List.cons_append]
    have : ((addr + 1) % 4294967296 + rest.length / 2) % 4294967296 =
        (addr + (rest.length / 2 + 1)) % 4294967296 := by omega
    rw [this]

theorem main_run (littleEndian : Bool) (fopen : String → Option (List (Fin 256)))
    (prog path : String) (bytes : List (Fin 256)) (h : fopen path = some bytes) :
    main littleEndian fopen [prog, path] = (disassembleLoop littleEndian bytes 0x200, 0) := by
  simp [main, h, PROGRAM_DEFAULT_ENTRY_POINT, EXIT_SUCCESS]

/-! ## Every output of the loop is one line -/

theorem digitChar_ne_newline (d : Nat) : digitChar d ≠ '\n' := by
  unfold digitChar
  split <;> decide

theorem newline_ne_digitChar (d : Nat) : '\n' ≠ digitChar d :=
  fun h => digitChar_ne_newline d h.symm

theorem digitsOf_no_newline (b : Nat) (hb2 : 2 ≤ b) (n : Nat) : '\n' ∉ digitsOf b n := by
  induction n using Nat.strong_induction_on with
  | _ n ih =>
    by_cases hb : n < b
    · rw [digitsOf_lt b n hb]
      simp [newline_ne_digitChar]
    · have hdiv : n / b < n := Nat.div_lt_self (by omega) (by omega)
      rw [digitsOf_step b hb2 n (by omega)]
      simp [newline_ne_digitChar, ih (n / b) hdiv]

theorem zeroPad_no_newline (width n : Nat) : '\n' ∉ zeroPad width (digitsOf 16 n) := by
  have h := digitsOf_no_newline 16 (by decide) n
  simp only [zeroPad, List.mem_append, List.mem_replicate]
  rintro (⟨_, h1⟩ | h1)
  · exact absurd h1 (by decide)
  · exact h h1

theorem fmt03X_no_newline (n : Nat) : '\n' ∉ (fmt03X n).data := zeroPad_no_newline 3 n

theorem fmt04X_no_newline (n : Nat) : '\n' ∉ (fmt04X n).data := zeroPad_no_newline 4 n

theorem dec_no_newline (n : Nat) : '\n' ∉ (dec n).data := by
  unfold dec
  split_ifs <;> simp [newline_ne_digitChar]

theorem textOf_some (w : Nat) (m : String) (h : DisassembleInstruction w = some m) :
    textOf w = m := by
  simp [textOf, h]

theorem textOf_none (w : Nat) (h : DisassembleInstruction w = none) : textOf w = "???" := by
  simp [textOf, h]

theorem text_no_newline (w : Nat) (h : w < 65536) (m : String)
    (hm : DisassembleInstruction w = some m) : '\n' ∉ m.data := by
  have hd := dec_no_newline (w % 256)
  have hlt : w / 4096 < 16 := by omega
  obtain ⟨k, hk⟩ : ∃ k, w / 4096 = k := ⟨_, rfl⟩
  rw [hk] at hlt
  interval_cases k
  · rw [dis_sys w h hk] at hm
    split_ifs at hm <;> cases hm <;>
      simp [String.data_append, hex3, newline_ne_digitChar]
  · rw [(dis_addr w h).1 hk] at hm
    cases hm
    simp [String.data_append, hex3, newline_ne_digitChar]
  · rw [(dis_addr w h).2.1 hk] at hm
    cases hm
    simp [String.data_append, hex3, newline_ne_digitChar]
  · rw [(dis_byte w h).1 hk] at hm
    cases hm
    simp [String.data_append, hex1, hex2, newline_ne_digitChar, hd]
  · rw [(dis_byte w h).2.1 hk] at hm
    cases hm
    simp [String.data_append, hex1, hex2, newline_ne_digitChar, hd]
  · rw [(dis_skip w h).1 hk] at hm
    split_ifs at hm
    cases hm
    simp [String.data_append, hex1, newline_ne_digitChar]
  · rw [(dis_byte w h).2.2.1 hk] at hm
    cases hm
    simp [String.data_append, hex1, hex2, newline_ne_digitChar, hd]
  · rw [(dis_byte w h).2.2.2.1 hk] at hm
    cases hm
    simp [String.data_append, hex1, hex2, newline_ne_digitChar, hd]
  · rw [dis_alu w h hk] at hm
    have hl : w % 16 < 16 := by omega
    obtain ⟨l, hl2⟩ : ∃ l, w % 16 = l := ⟨_, rfl⟩
    rw [hl2] at hm hl
    interval_cases l <;> simp [aluName] at hm <;> subst hm <;>
      simp [String.data_append, hex1, newline_ne_digitChar]
  · rw [(dis_skip w h).2 hk] at hm
    split_ifs at hm
    cases hm
    simp [String.data_append, hex1, newline_ne_digitChar]
  · rw [(dis_addr w h).2.2.1 hk] at hm
    cases hm
    simp [String.data_append, hex3, newline_ne_digitChar]
  · rw [(dis_addr w h).2.2.2 hk] at hm
    cases hm
    simp [String.data_append, hex3, newline_ne_digitChar]
  · rw [(dis_byte w h).2.2.2.2 hk] at hm
    cases hm
    simp [String.data_append, hex1, hex2, newline_ne_digitChar, hd]
  · rw [dis_drw w h hk] at hm
    cases hm
    simp [String.data_append, hex1, newline_ne_digitChar]
  · rw [dis_key w h hk] at hm
    split_ifs at hm <;> cases hm <;>
      simp [String.data_append, hex1, newline_ne_digitChar]
  · rw [dis_misc w h hk] at hm
    split_ifs at hm <;> cases hm <;>
      simp [String.data_append, hex1, newline_ne_digitChar]

theorem textOf_no_newline (w : Nat) (h : w < 65536) : '\n' ∉ (textOf w).data := by
  cases hm : DisassembleInstruction w with
  | none =>
    rw [textOf_none w hm]
    decide
  | some m =>
    rw [textOf_some w m hm]
    exact text_no_newline w h m hm

theorem printfLine_eq_body (a w : Nat) (t : String) :
    printfLine a w t = lineBody a w t ++ "\n" := rfl

theorem lineBody_no_newline (a w : Nat) (hw : w < 65536) :
    '\n' ∉ (lineBody a w (textOf w)).data := by
  have h1 := fmt03X_no_newline a
  have h2 := fmt04X_no_newline w
  have h3 := textOf_no_newline w hw
  simp [lineBody, String.data_append, h1, h2, h3]

theorem loop_outputs_are_lines (littleEndian : Bool) :
    ∀ (bytes : List (Fin 256)) (addr : Nat),
      ∀ line ∈ disassembleLoop littleEndian bytes addr,
        ∃ body : String, line = body ++ "\n" ∧ body ≠ "" ∧ '\n' ∉ body.data
  | [], _, line, h => by
    rw [disassembleLoop_short littleEndian [] _ (by decide)] at h
    exact absurd h (List.not_mem_nil _)
  | [b], _, line, h => by
    rw [disassembleLoop_short littleEndian [b] _ (by simp)] at h
    exact absurd h (List.not_mem_nil _)
  | b0 :: b1 :: rest, addr, line, h => by
    rw [disassembleLoop_cons, List.mem_cons] at h
    rcases h with h | h
    · have hw : 256 * b0.val + b1.val < 65536 := by
        have h0 := b0.isLt
        have h1 := b1.isLt
        omega
      refine ⟨lineBody addr (256 * b0.val + b1.val) (textOf (256 * b0.val + b1.val)),
        by rw [h, printfLine_eq_body], ?_, lineBody_no_newline addr _ hw⟩
      intro he
      have := congrArg String.data he
      simp [lineBody, String.data_append] at this
    · exact loop_outputs_are_lines littleEndian rest _ line h

theorem count_newline_line (body : String) (h : '\n' ∉ body.data) :
    (body ++ "\n").data.count '\n' = 1 := by
  rw [String.data_append, List.count_append, List.count_eq_zero_of_not_mem h]
  rfl

theorem newlineCount_of_lines :
    ∀ outputs : List String,
      (∀ line ∈ outputs, ∃ body : String, line = body ++ "\n" ∧ body ≠ "" ∧ '\n' ∉ body.data) →
      newlineCount outputs = outputs.length
  | [], _ => rfl
  | o :: os, h => by
    obtain ⟨body, hb, _, hn⟩ := h o (List.mem_cons_self _ _)
    have ih := newlineCount_of_lines os (fun l hl => h l (List.mem_cons_of_mem _ hl))
    rw [newlineCount] at ih ⊢
    rw [List.map_cons, List.sum_cons, ih, hb, count_newline_line body hn, List.length_cons]
    omega

/-! ## Properties of the driver -/

theorem wordAt_eq (bytes : List (Fin 256)) (k : Nat) (hk : k < bytes.length / 2) :
    ∃ b0 b1 : Fin 256, bytes[2 * k]? = some b0 ∧ bytes[2 * k + 1]? = some b1 ∧
      wordAt bytes k = 256 * b0.val + b1.val := by
  have h0 : 2 * k < bytes.length := by omega
  have h1 : 2 * k + 1 < bytes.length := by omega
  refine ⟨bytes[2 * k], bytes[2 * k + 1], List.getElem?_eq_getElem h0,
    List.getElem?_eq_getElem h1, ?_⟩
  simp [wordAt, List.getD_eq_getElem?_getD, List.getElem?_eq_getElem h0,
    List.getElem?_eq_getElem h1]

theorem example_stream (littleEndian : Bool) :
    disassembleLoop littleEndian [0x00, 0xE0, 0xFF, 0xFF] 0x200 =
      ["0x200:\t0x00E0\tCLS\n", "0x201:\t0xFFFF\t???\n"] := by
  cases littleEndian <;> decide

theorem line_of_main (littleEndian : Bool) (fopen : String → Option (List (Fin 256)))
    (prog path : String) (bytes : List (Fin 256)) (h : fopen path = some bytes)
    (k : Nat) (hk : k < bytes.length / 2) :
    (main littleEndian fopen [prog, path]).1[k]? =
      some ("0x" ++ fmt03X ((0x200 + k) % 4294967296) ++ ":\t0x" ++ fmt04X (wordAt bytes k) ++
        "\t" ++ textOf (wordAt bytes k) ++ "\n") := by
  rw [main_run littleEndian fopen prog path bytes h]
  exact disassembleLoop_getElem? littleEndian bytes 0x200 k (by decide) hk

theorem wordAt_replicate (n k : Nat) : wordAt (List.replicate n (0 : Fin 256)) k = 0 := by
  simp only [wordAt, List.getD_eq_getElem?_getD, List.getElem?_getD_replicate_default_eq]
  rfl

theorem replicate_line (n k : Nat) (hk : k < n / 2) :
    (disassembleLoop true (List.replicate n (0 : Fin 256)) 0x200)[k]? =
      some (printfLine ((0x200 + k) % 4294967296) 0 (textOf 0)) := by
  have hl : k < (List.replicate n (0 : Fin 256)).length / 2 := by
    rw [List.length_replicate]
    exact hk
  rw [disassembleLoop_getElem? true _ 0x200 k (by decide) hl, wordAt_replicate]

theorem concat_line (littleEndian : Bool) (A B : List (Fin 256)) (hA : A.length % 2 = 0)
    (k : Nat) (hk : k < B.length / 2) (n : Nat) (hn : A.length / 2 + k = n) :
    (disassembleLoop littleEndian (A ++ B) 0x200)[n]? =
      some (printfLine ((0x200 + n) % 4294967296) (wordAt B k) (textOf (wordAt B k))) := by
  subst hn
  have hlen := disassembleLoop_length littleEndian A 0x200
  have hm : (0x200 + A.length / 2) % 4294967296 < 4294967296 := Nat.mod_lt _ (by decide)
  rw [disassembleLoop_append littleEndian A B 0x200 (by decide) hA,
    List.getElem?_append_right (by omega), hlen, Nat.add_sub_cancel_left,
    disassembleLoop_getElem? littleEndian B _ k hm hk]
  have : ((0x200 + A.length / 2) % 4294967296 + k) % 4294967296 =
      (0x200 + (A.length / 2 + k)) % 4294967296 := by omega
  rw [this]

/-- C11: when the input file was opened, the driver ends with exit code 0 after
printing exactly `floor(n/2)` lines for an input of `n` bytes: it makes `floor(n/2)`
outputs, each of them a non-empty text without newline followed by one newline, so
that `floor(n/2)` newline characters are printed in all; an input of at most one byte
gives no output, and the bytes `00 E0 FF FF` give exactly two lines. -/
theorem driver_line_count (littleEndian : Bool) (fopen : String → Option (List (Fin 256)))
    (prog path : String) (bytes : List (Fin 256)) (h : fopen path = some bytes) :
    (main littleEndian fopen [prog, path]).2 = 0 ∧
    (main littleEndian fopen [prog, path]).1.length = bytes.length / 2 ∧
    (∀ line ∈ (main littleEndian fopen [prog, path]).1,
      ∃ body : String, line = body ++ "\n" ∧ body ≠ "" ∧ '\n' ∉ body.data) ∧
    newlineCount (main littleEndian fopen [prog, path]).1 = bytes.length / 2 ∧
    (bytes.length ≤ 1 → (main littleEndian fopen [prog, path]).1 = []) ∧
    (bytes = [0x00, 0xE0, 0xFF, 0xFF] → (main littleEndian fopen [prog, path]).1 =
      ["0x200:\t0x00E0\tCLS\n", "0x201:\t0xFFFF\t???\n"]) := by
  rw [main_run littleEndian fopen prog path bytes h]
  have hlines := loop_outputs_are_lines littleEndian bytes 0x200
  have hlen := disassembleLoop_length littleEndian bytes 0x200
  refine ⟨rfl, hlen, hlines, ?_, ?_, ?_⟩
  · exact (newlineCount_of_lines _ hlines).trans hlen
  · intro hl
    exact disassembleLoop_short littleEndian bytes _ (by omega)
  · intro hb
    rw [hb, example_stream]

/-- Instance of C11 at the file content `00 E0 FF FF`. -/
theorem driver_line_count_witness :
    (fun _ : String => some ([0x00, 0xE0, 0xFF, 0xFF] : List (Fin 256))) "rom.ch8" =
      some [0x00, 0xE0, 0xFF, 0xFF] ∧
    ((main true (fun _ => some [0x00, 0xE0, 0xFF, 0xFF]) ["dis", "rom.ch8"]).2 = 0 ∧
    (main true (fun _ => some [0x00, 0xE0, 0xFF, 0xFF]) ["dis", "rom.ch8"]).1.length =
      ([0x00, 0xE0, 0xFF, 0xFF] : List (Fin 256)).length / 2 ∧
    (∀ line ∈ (main true (fun _ => some [0x00, 0xE0, 0xFF, 0xFF]) ["dis", "rom.ch8"]).1,
      ∃ body : String, line = body ++ "\n" ∧ body ≠ "" ∧ '\n' ∉ body.data) ∧
    newlineCount (main true (fun _ => some [0x00, 0xE0, 0xFF, 0xFF]) ["dis", "rom.ch8"]).1 =
      ([0x00, 0xE0, 0xFF, 0xFF] : List (Fin 256)).length / 2 ∧
    (([0x00, 0xE0, 0xFF, 0xFF] : List (Fin 256)).length ≤ 1 →
      (main true (fun _ => some [0x00, 0xE0, 0xFF, 0xFF]) ["dis", "rom.ch8"]).1 = []) ∧
    (([0x00, 0xE0, 0xFF, 0xFF] : List (Fin 256)) = [0x00, 0xE0, 0xFF, 0xFF] →
      (main true (fun _ => some [0x00, 0xE0, 0xFF, 0xFF]) ["dis", "rom.ch8"]).1 =
        ["0x200:\t0x00E0\tCLS\n", "0x201:\t0xFFFF\t???\n"])) :=
  ⟨rfl, driver_line_count true (fun _ => some [0x00, 0xE0, 0xFF, 0xFF]) "dis" "rom.ch8"
    [0x00, 0xE0, 0xFF, 0xFF] rfl⟩

/-- C12 (as stated, refuted): for an input of 8589933570 zero bytes the line of index
`4294966784 = 2 ^ 32 - 0x200` carries the address `0x000`, whose value is 0 and not
`0x200 + 4294966784`: the 32-bit counter has wrapped around. -/
theorem address_wraps_around :
    (main true (fun _ => some (List.replicate 8589933570 0)) ["dis", "rom.ch8"]).1[4294966784]? =
      some ("0x" ++ "000" ++ ":\t0x0000\tSYS 0x000\n") ∧
    valueIn 16 "000" = some 0 ∧ 0 ≠ 0x200 + 4294966784 := by
  refine ⟨?_, by decide, by decide⟩
  rw [main_run true _ "dis" "rom.ch8" (List.replicate 8589933570 0) rfl,
    replicate_line 8589933570 4294966784 (by decide)]
  decide

/-- C12 (amended): the address printed on the `k`-th line (counted from 0) has the
value `(0x200 + k) mod 2 ^ 32`: the counter starts at the entry point `0x0200` and
grows by one per instruction, wrapping with the 32-bit counter; it is exactly
`0x200 + k` for every `k < 2 ^ 32 - 0x200`, and the bytes `00 E0 FF FF` give the
addresses `0x200` and `0x201`. -/
theorem address_of_line (littleEndian : Bool) (fopen : String → Option (List (Fin 256)))
    (prog path : String) (bytes : List (Fin 256)) (h : fopen path = some bytes)
    (k : Nat) (hk : k < bytes.length / 2) :
    (∃ word text, (main littleEndian fopen [prog, path]).1[k]? =
        some ("0x" ++ fmt03X ((0x200 + k) % 4294967296) ++ ":\t0x" ++ fmt04X word ++ "\t" ++
          text ++ "\n")) ∧
    valueIn 16 (fmt03X ((0x200 + k) % 4294967296)) = some ((0x200 + k) % 4294967296) ∧
    (k < 4294966784 → (0x200 + k) % 4294967296 = 0x200 + k) ∧
    (bytes = [0x00, 0xE0, 0xFF, 0xFF] → (main littleEndian fopen [prog, path]).1 =
      ["0x200:\t0x00E0\tCLS\n", "0x201:\t0xFFFF\t???\n"]) := by
  refine ⟨⟨wordAt bytes k, textOf (wordAt bytes k),
    line_of_main littleEndian fopen prog path bytes h k hk⟩, valueIn_fmt03X _, ?_, ?_⟩
  · intro hlt
    omega
  · intro hb
    rw [main_run littleEndian fopen prog path bytes h, hb, example_stream]

/-- Instance of the amended C12 at the file content `00 E0 FF FF`, second line. -/
theorem address_of_line_witness :
    (fun _ : String => some ([0x00, 0xE0, 0xFF, 0xFF] : List (Fin 256))) "rom.ch8" =
      some [0x00, 0xE0, 0xFF, 0xFF] ∧
    1 < ([0x00, 0xE0, 0xFF, 0xFF] : List (Fin 256)).length / 2 ∧
    ((∃ word text,
      (main true (fun _ => some [0x00, 0xE0, 0xFF, 0xFF]) ["dis", "rom.ch8"]).1[1]? =
        some ("0x" ++ fmt03X ((0x200 + 1) % 4294967296) ++ ":\t0x" ++ fmt04X word ++ "\t" ++
          text ++ "\n")) ∧
    valueIn 16 (fmt03X ((0x200 + 1) % 4294967296)) = some ((0x200 + 1) % 4294967296) ∧
    (1 < 4294966784 → (0x200 + 1) % 4294967296 = 0x200 + 1) ∧
    (([0x00, 0xE0, 0xFF, 0xFF] : List (Fin 256)) = [0x00, 0xE0, 0xFF, 0xFF] →
      (main true (fun _ => some [0x00, 0xE0, 0xFF, 0xFF]) ["dis", "rom.ch8"]).1 =
        ["0x200:\t0x00E0\tCLS\n", "0x201:\t0xFFFF\t???\n"])) :=
  ⟨rfl, by decide, address_of_line true (fun _ => some [0x00, 0xE0, 0xFF, 0xFF]) "dis" "rom.ch8"
    [0x00, 0xE0, 0xFF, 0xFF] rfl 1 (by decide)⟩

/-- C14: the word shown on the `k`-th line is the big-endian combination
`256 * b[2k] + b[2k+1]` of the bytes of the `k`-th record, on either host byte order,
and the text is the decoder's mnemonic for that word when it is recognized and `???`
otherwise; the bytes `00 E0 FF FF` give the words `0x00E0` (`CLS`) and `0xFFFF` (`???`). -/
theorem word_and_text_of_line (littleEndian : Bool)
    (fopen : String → Option (List (Fin 256)))
    (prog path : String) (bytes : List (Fin 256)) (h : fopen path = some bytes)
    (k : Nat) (hk : k < bytes.length / 2) :
    (∃ b0 b1 : Fin 256, bytes[2 * k]? = some b0 ∧ bytes[2 * k + 1]? = some b1 ∧
      ∃ text : String,
        (main littleEndian fopen [prog, path]).1[k]? =
          some ("0x" ++ fmt03X ((0x200 + k) % 4294967296) ++ ":\t0x" ++
            hex4 (256 * b0.val + b1.val) ++ "\t" ++ text ++ "\n") ∧
        valueIn 16 (hex4 (256 * b0.val + b1.val)) = some (256 * b0.val + b1.val) ∧
        (∀ m, DisassembleInstruction (256 * b0.val + b1.val) = some m → text = m) ∧
        (DisassembleInstruction (256 * b0.val + b1.val) = none → text = "???")) ∧
    (bytes = [0x00, 0xE0, 0xFF, 0xFF] → (main littleEndian fopen [prog, path]).1 =
      ["0x200:\t0x00E0\tCLS\n", "0x201:\t0xFFFF\t???\n"]) := by
  constructor
  · obtain ⟨b0, b1, h0, h1, hw⟩ := wordAt_eq bytes k hk
    have hlt := wordAt_lt bytes k
    have hline := line_of_main littleEndian fopen prog path bytes h k hk
    rw [hw] at hline hlt
    refine ⟨b0, b1, h0, h1, textOf (256 * b0.val + b1.val), ?_, valueIn_hex4 _ hlt,
      fun m hm => textOf_some _ m hm, fun hn => textOf_none _ hn⟩
    rw [hline, fmt04X_eq _ hlt]
  · intro hb
    rw [main_run littleEndian fopen prog path bytes h, hb, example_stream]

/-- Instance of C14 at the file content `00 E0 FF FF`, second line. -/
theorem word_and_text_of_line_witness :
    (fun _ : String => some ([0x00, 0xE0, 0xFF, 0xFF] : List (Fin 256))) "rom.ch8" =
      some [0x00, 0xE0, 0xFF, 0xFF] ∧
    1 < ([0x00, 0xE0, 0xFF, 0xFF] : List (Fin 256)).length / 2 ∧
    ((∃ b0 b1 : Fin 256, ([0x00, 0xE0, 0xFF, 0xFF] : List (Fin 256))[2 * 1]? = some b0 ∧
      ([0x00, 0xE0, 0xFF, 0xFF] : List (Fin 256))[2 * 1 + 1]? = some b1 ∧
      ∃ text : String,
        (main false (fun _ => some [0x00, 0xE0, 0xFF, 0xFF]) ["dis", "rom.ch8"]).1[1]? =
          some ("0x" ++ fmt03X ((0x200 + 1) % 4294967296) ++ ":\t0x" ++
            hex4 (256 * b0.val + b1.val) ++ "\t" ++ text ++ "\n") ∧
        valueIn 16 (hex4 (256 * b0.val + b1.val)) = some (256 * b0.val + b1.val) ∧
        (∀ m, DisassembleInstruction (256 * b0.val + b1.val) = some m → text = m) ∧
        (DisassembleInstruction (256 * b0.val + b1.val) = none → text = "???")) ∧
    (([0x00, 0xE0, 0xFF, 0xFF] : List (Fin 256)) = [0x00, 0xE0, 0xFF, 0xFF] →
      (main false (fun _ => some [0x00, 0xE0, 0xFF, 0xFF]) ["dis", "rom.ch8"]).1 =
        ["0x200:\t0x00E0\tCLS\n", "0x201:\t0xFFFF\t???\n"])) :=
  ⟨rfl, by decide, word_and_text_of_line false (fun _ => some [0x00, 0xE0, 0xFF, 0xFF]) "dis"
    "rom.ch8" [0x00, 0xE0, 0xFF, 0xFF] rfl 1 (by decide)⟩

/-- C15: with a program name and a number of arguments other than one, the program
prints only the usage message naming the program and exits with code 1, whatever the
files are; with one argument naming a file that cannot be opened it prints only a
message containing that path and exits with code 1.  No disassembly line is printed. -/
theorem usage_and_open_errors (littleEndian : Bool)
    (fopen : String → Option (List (Fin 256))) (prog : String) :
    (∀ args : List String, args.length ≠ 1 →
      main littleEndian fopen (prog :: args) =
        (["Error : bad parameters.\nUsage : " ++ prog ++ " programFileToDisassemble\n"], 1) ∧
      ∀ fopen2 : String → Option (List (Fin 256)),
        main littleEndian fopen2 (prog :: args) = main littleEndian fopen (prog :: args)) ∧
    (∀ path : String, fopen path = none →
      main littleEndian fopen [prog, path] =
        (["Error : could not load program '" ++ path ++ "'.\n"], 1)) := by
  constructor
  · intro args ha
    have hl : (prog :: args).length ≠ 2 := by
      simp only [List.length_cons]
      omega
    have e : ∀ f : String → Option (List (Fin 256)), main littleEndian f (prog :: args) =
        (["Error : bad parameters.\nUsage : " ++ prog ++ " programFileToDisassemble\n"], 1) := by
      intro f
      rw [main, if_pos hl]
      rfl
    exact ⟨e fopen, fun f2 => (e f2).trans (e fopen).symm⟩
  · intro path hp
    simp [main, hp, EXIT_FAILURE]

/-- C16 (as stated, refuted): with A made of 8589933568 zero bytes, of even length and
with `len(A)/2 = 4294966784`, and B the two bytes `00 E0`, the line of B has the address
`0x200` when B is disassembled alone and the address `0x000` in the output for `A ++ B`:
the address is not larger by `len(A)/2`, the 32-bit counter has wrapped around. -/
theorem address_shift_not_exact :
    (List.replicate 8589933568 (0 : Fin 256)).length % 2 = 0 ∧
    (List.replicate 8589933568 (0 : Fin 256)).length / 2 = 4294966784 ∧
    (main true (fun _ => some [0x00, 0xE0]) ["dis", "b"]).1[0]? =
      some ("0x" ++ "200" ++ ":\t0x00E0\tCLS\n") ∧
    (main true (fun _ => some (List.replicate 8589933568 0 ++ [0x00, 0xE0]))
        ["dis", "ab"]).1[4294966784]? =
      some ("0x" ++ "000" ++ ":\t0x00E0\tCLS\n") ∧
    valueIn 16 "200" = some 0x200 ∧ valueIn 16 "000" = some 0 ∧
    0 ≠ 0x200 + 4294966784 := by
  have hl : (List.replicate 8589933568 (0 : Fin 256)).length = 8589933568 :=
    List.length_replicate _ _
  have h1 : (List.replicate 8589933568 (0 : Fin 256)).length % 2 = 0 := by
    rw [hl]
  have h2 : (List.replicate 8589933568 (0 : Fin 256)).length / 2 + 0 = 4294966784 := by
    rw [hl]
  refine ⟨h1, ?_, by decide, ?_, by decide, by decide, by decide⟩
  · rw [hl]
  · rw [main_run true _ "dis" "ab" (List.replicate 8589933568 0 ++ [0x00, 0xE0]) rfl,
      concat_line true (List.replicate 8589933568 0) [0x00, 0xE0] h1 0 (by decide)
        4294966784 h2]
    decide

/-- C16 (amended): for byte streams A of even length and B, the output for `A ++ B` is
the output for A followed by one line per record of B; each of these lines has the
word and text of the corresponding line of B disassembled alone, and its address is
`(0x200 + len(A)/2 + k) mod 2 ^ 32` instead of `(0x200 + k) mod 2 ^ 32`: the address is
larger by `len(A)/2` as long as the 32-bit counter has not wrapped around. -/
theorem concatenation (littleEndian : Bool) (fopen : String → Option (List (Fin 256)))
    (prog pa pb pab : String) (A B : List (Fin 256)) (hA : A.length % 2 = 0)
    (ha : fopen pa = some A) (hb : fopen pb = some B) (hab : fopen pab = some (A ++ B)) :
    (main littleEndian fopen [prog, pab]).1 =
      (main littleEndian fopen [prog, pa]).1 ++
        disassembleLoop littleEndian B ((0x200 + A.length / 2) % 4294967296) ∧
    (disassembleLoop littleEndian B ((0x200 + A.length / 2) % 4294967296)).length =
      B.length / 2 ∧
    ∀ k, k < B.length / 2 → ∃ word text,
      (main littleEndian fopen [prog, pb]).1[k]? =
        some ("0x" ++ fmt03X ((0x200 + k) % 4294967296) ++ ":\t0x" ++ fmt04X word ++ "\t" ++
          text ++ "\n") ∧
      (main littleEndian fopen [prog, pab]).1[A.length / 2 + k]? =
        some ("0x" ++ fmt03X ((0x200 + (A.length / 2 + k)) % 4294967296) ++ ":\t0x" ++
          fmt04X word ++ "\t" ++ text ++ "\n") ∧
      (0x200 + (A.length / 2 + k) < 4294967296 →
        (0x200 + (A.length / 2 + k)) % 4294967296 =
          (0x200 + k) % 4294967296 + A.length / 2) := by
  have hline := line_of_main littleEndian fopen prog pb B hb
  rw [main_run littleEndian fopen prog pa A ha,
    main_run littleEndian fopen prog pab (A ++ B) hab]
  refine ⟨disassembleLoop_append littleEndian A B 0x200 (by decide) hA,
    disassembleLoop_length littleEndian B _, ?_⟩
  intro k hk
  refine ⟨wordAt B k, textOf (wordAt B k), hline k hk,
    concat_line littleEndian A B hA k hk _ rfl, ?_⟩
  intro hlt
  omega

/-- Instance of the amended C16 with A = `00 E0` and B = `FF FF`. -/
theorem concatenation_witness :
    ([0x00, 0xE0] : List (Fin 256)).length % 2 = 0 ∧
    (fun p : String => if p = "a" then some ([0x00, 0xE0] : List (Fin 256))
      else if p = "b" then some [0xFF, 0xFF] else some ([0x00, 0xE0] ++ [0xFF, 0xFF])) "a" =
        some [0x00, 0xE0] ∧
    (fun p : String => if p = "a" then some ([0x00, 0xE0] : List (Fin 256))
      else if p = "b" then some [0xFF, 0xFF] else some ([0x00, 0xE0] ++ [0xFF, 0xFF])) "b" =
        some [0xFF, 0xFF] ∧
    (fun p : String => if p = "a" then some ([0x00, 0xE0] : List (Fin 256))
      else if p = "b" then some [0xFF, 0xFF] else some ([0x00, 0xE0] ++ [0xFF, 0xFF])) "ab" =
        some ([0x00, 0xE0] ++ [0xFF, 0xFF]) ∧
    (main true (fun p : String => if p = "a" then some ([0x00, 0xE0] : List (Fin 256))
      else if p = "b" then some [0xFF, 0xFF] else some ([0x00, 0xE0] ++ [0xFF, 0xFF]))
        ["dis", "ab"]).1 = ["0x200:\t0x00E0\tCLS\n", "0x201:\t0xFFFF\t???\n"] :=
  ⟨by decide, by decide, by decide, by decide,
    ((concatenation true _ "dis" "a" "b" "ab" [0x00, 0xE0] [0xFF, 0xFF] (by decide)
      (by decide) (by decide) (by decide)).1).trans (by decide)⟩

/-- C17: for every 16-bit word the extracted fields are the stated bit slices and
jointly reconstruct the word; storing them in `unsigned char` loses nothing. -/
theorem fields_are_bit_slices (w : Nat) (h : w < 65536) :
    Opcode w = w / 4096 ∧ Opcode w < 16 ∧ Address w = w % 4096 ∧ Byte w = w % 256 ∧
    High_Nibble w = w / 256 % 16 ∧ Middle_Nibble w = w / 16 % 16 ∧ Low_Nibble w = w % 16 ∧
    w = 4096 * Opcode w + Address w ∧ Address w = 256 * High_Nibble w + Byte w ∧
    Byte w = 16 * Middle_Nibble w + Low_Nibble w := by
  rw [Opcode_eq w h, Address_eq, Byte_eq, High_Nibble_eq, Middle_Nibble_eq, Low_Nibble_eq]
  omega

/-- Instance of C17 at the word `0xD12F`. -/
theorem fields_are_bit_slices_witness :
    0xD12F < 65536 ∧
    (Opcode 0xD12F = 0xD12F / 4096 ∧ Opcode 0xD12F < 16 ∧ Address 0xD12F = 0xD12F % 4096 ∧
    Byte 0xD12F = 0xD12F % 256 ∧ High_Nibble 0xD12F = 0xD12F / 256 % 16 ∧
    Middle_Nibble 0xD12F = 0xD12F / 16 % 16 ∧ Low_Nibble 0xD12F = 0xD12F % 16 ∧
    0xD12F = 4096 * Opcode 0xD12F + Address 0xD12F ∧
    Address 0xD12F = 256 * High_Nibble 0xD12F + Byte 0xD12F ∧
    Byte 0xD12F = 16 * Middle_Nibble 0xD12F + Low_Nibble 0xD12F) :=
  ⟨by decide, fields_are_bit_slices 0xD12F (by decide)⟩

/-! ## The rendering loses no information -/

theorem digitAt_digitChar (d : Nat) (h : d < 16) : (charValue (digitChar d)).getD 0 = d := by
  rw [charValue_digitChar d h]
  rfl

theorem assemble_addr (w : Nat) (h : w < 65536) (m : String)
    (hm : DisassembleInstruction w = some m)
    (hk : w / 4096 = 0 ∨ w / 4096 = 1 ∨ w / 4096 = 2 ∨ w / 4096 = 0xA ∨ w / 4096 = 0xB) :
    assemble m.data = w := by
  have ha := digitAt_digitChar (w % 4096 / 256) (by omega)
  have hb := digitAt_digitChar (w % 4096 / 16 % 16) (by omega)
  have hc := digitAt_digitChar (w % 4096 % 16) (by omega)
  rcases hk with hk | hk | hk | hk | hk
  · rw [dis_sys w h hk] at hm
    split_ifs at hm with h1 h2
    · cases hm
      have : w = 0xE0 := by omega
      subst this
      decide
    · cases hm
      have : w = 0xEE := by omega
      subst this
      decide
    · cases hm
      simp [assemble, digitAt, String.data_append, hex3, ha, hb, hc]
      omega
  · rw [(dis_addr w h).1 hk] at hm
    cases hm
    simp [assemble, digitAt, String.data_append, hex3, ha, hb, hc]
    omega
  · rw [(dis_addr w h).2.1 hk] at hm
    cases hm
    simp [assemble, digitAt, String.data_append, hex3, ha, hb, hc]
    omega
  · rw [(dis_addr w h).2.2.1 hk] at hm
    cases hm
    simp [assemble, digitAt, String.data_append, hex3, ha, hb, hc]
    omega
  · rw [(dis_addr w h).2.2.2 hk] at hm
    cases hm
    simp [assemble, digitAt, String.data_append, hex3, ha, hb, hc]
    omega

theorem assemble_byte (w : Nat) (h : w < 65536) (m : String)
    (hm : DisassembleInstruction w = some m)
    (hk : w / 4096 = 3 ∨ w / 4096 = 4 ∨ w / 4096 = 6 ∨ w / 4096 = 7 ∨ w / 4096 = 0xC) :
    assemble m.data = w := by
  have hx := digitAt_digitChar (w / 256 % 16) (by omega)
  have hp := digitAt_digitChar (w % 256 / 16) (by omega)
  have hq := digitAt_digitChar (w % 256 % 16) (by omega)
  rcases hk with hk | hk | hk | hk | hk
  · rw [(dis_byte w h).1 hk] at hm
    cases hm
    simp [assemble, digitAt, String.data_append, hex1, hex2, hx, hp, hq]
    omega
  · rw [(dis_byte w h).2.1 hk] at hm
    cases hm
    simp [assemble, digitAt, String.data_append, hex1, hex2, hx, hp, hq]
    omega
  · rw [(dis_byte w h).2.2.1 hk] at hm
    cases hm
    simp [assemble, digitAt, String.data_append, hex1, hex2, hx, hp, hq]
    omega
  · rw [(dis_byte w h).2.2.2.1 hk] at hm
    cases hm
    simp [assemble, digitAt, String.data_append, hex1, hex2, hx, hp, hq]
    omega
  · rw [(dis_byte w h).2.2.2.2 hk] at hm
    cases hm
    simp [assemble, digitAt, String.data_append, hex1, hex2, hx, hp, hq]
    omega

theorem assemble_reg (w : Nat) (h : w < 65536) (m : String)
    (hm : DisassembleInstruction w = some m)
    (hk : w / 4096 = 5 ∨ w / 4096 = 9 ∨ w / 4096 = 0xD) :
    assemble m.data = w := by
  have hx := digitAt_digitChar (w / 256 % 16) (by omega)
  have hy := digitAt_digitChar (w / 16 % 16) (by omega)
  have hn := digitAt_digitChar (w % 16) (by omega)
  rcases hk with hk | hk | hk
  · rw [(dis_skip w h).1 hk] at hm
    split_ifs at hm with h1
    cases hm
    simp [assemble, digitAt, String.data_append, hex1, hx, hy]
    omega
  · rw [(dis_skip w h).2 hk] at hm
    split_ifs at hm with h1
    cases hm
    simp [assemble, digitAt, String.data_append, hex1, hx, hy]
    omega
  · rw [dis_drw w h hk] at hm
    cases hm
    simp [assemble, digitAt, String.data_append, hex1, hx, hy, hn]
    omega

theorem assemble_alu_form (name : String) (x y : Nat) :
    assemble (name ++ " V" ++ hex1 x ++ ", V" ++ hex1 y).data =
      assemble (name.data ++ [' ', 'V', digitChar x, ',', ' ', 'V', digitChar y]) := by
  simp [String.data_append, hex1]

theorem assemble_alu (w : Nat) (h : w < 65536) (m : String)
    (hm : DisassembleInstruction w = some m) (hk : w / 4096 = 8) :
    assemble m.data = w := by
  have hx := digitAt_digitChar (w / 256 % 16) (by omega)
  have hy := digitAt_digitChar (w / 16 % 16) (by omega)
  rw [dis_alu w h hk] at hm
  have hl : w % 16 < 16 := by omega
  obtain ⟨l, hl2⟩ : ∃ l, w % 16 = l := ⟨_, rfl⟩
  rw [hl2] at hm hl
  have key : ∀ name : String, aluName l = some name →
      assemble (name.data ++ [' ', 'V', digitChar (w / 256 % 16), ',', ' ', 'V',
        digitChar (w / 16 % 16)]) = w → assemble m.data = w := by
    intro name hname hw
    rw [hname] at hm
    cases hm
    rw [assemble_alu_form name _ _]
    exact hw
  interval_cases l
  · refine key "LD" rfl ?_
    simp [assemble, digitAt, hx, hy]
    omega
  · refine key "OR" rfl ?_
    simp [assemble, digitAt, hx, hy]
    omega
  · refine key "AND" rfl ?_
    simp [assemble, digitAt, hx, hy]
    omega
  · refine key "XOR" rfl ?_
    simp [assemble, digitAt, hx, hy]
    omega
  · refine key "ADD" rfl ?_
    simp [assemble, digitAt, hx, hy]
    omega
  · refine key "SUB" rfl ?_
    simp [assemble, digitAt, hx, hy]
    omega
  · refine key "SHR" rfl ?_
    simp [assemble, digitAt, hx, hy]
    omega
  · refine key "SUBN" rfl ?_
    simp [assemble, digitAt, hx, hy]
    omega
  · exact absurd hm (by simp [aluName])
  · exact absurd hm (by simp [aluName])
  · exact absurd hm (by simp [aluName])
  · exact absurd hm (by simp [aluName])
  · exact absurd hm (by simp [aluName])
  · exact absurd hm (by simp [aluName])
  · refine key "SHL" rfl ?_
    simp [assemble, digitAt, hx, hy]
    omega
  · exact absurd hm (by simp [aluName])

theorem assemble_key (w : Nat) (h : w < 65536) (m : String)
    (hm : DisassembleInstruction w = some m) (hk : w / 4096 = 0xE) :
    assemble m.data = w := by
  have hx := digitAt_digitChar (w / 256 % 16) (by omega)
  rw [dis_key w h hk] at hm
  split_ifs at hm with h1 h2
  · cases hm
    simp [assemble, digitAt, String.data_append, hex1, hx]
    omega
  · cases hm
    simp [assemble, digitAt, String.data_append, hex1, hx]
    omega

theorem assemble_misc (w : Nat) (h : w < 65536) (m : String)
    (hm : DisassembleInstruction w = some m) (hk : w / 4096 = 0xF) :
    assemble m.data = w := by
  have hx := digitAt_digitChar (w / 256 % 16) (by omega)
  rw [dis_misc w h hk] at hm
  split_ifs at hm
  all_goals
    cases hm
    simp [assemble, digitAt, String.data_append, hex1, hx]
    omega

theorem assemble_text (w : Nat) (h : w < 65536) (m : String)
    (hm : DisassembleInstruction w = some m) : assemble m.data = w := by
  have hlt : w / 4096 < 16 := by omega
  obtain ⟨k, hk⟩ : ∃ k, w / 4096 = k := ⟨_, rfl⟩
  rw [hk] at hlt
  interval_cases k
  · exact assemble_addr w h m hm (by omega)
  · exact assemble_addr w h m hm (by omega)
  · exact assemble_addr w h m hm (by omega)
  · exact assemble_byte w h m hm (by omega)
  · exact assemble_byte w h m hm (by omega)
  · exact assemble_reg w h m hm (by omega)
  · exact assemble_byte w h m hm (by omega)
  · exact assemble_byte w h m hm (by omega)
  · exact assemble_alu w h m hm hk
  · exact assemble_reg w h m hm (by omega)
  · exact assemble_addr w h m hm (by omega)
  · exact assemble_addr w h m hm (by omega)
  · exact assemble_byte w h m hm (by omega)
  · exact assemble_reg w h m hm (by omega)
  · exact assemble_key w h m hm hk
  · exact assemble_misc w h m hm hk

/-- C18: the decoder is injective on recognized words: two 16-bit words with the same
mnemonic text are equal, and the word is recovered from its text by `assemble`. -/
theorem decoder_injective (w1 w2 : Nat) (h1 : w1 < 65536) (h2 : w2 < 65536) (m : String)
    (hm1 : DisassembleInstruction w1 = some m) (hm2 : DisassembleInstruction w2 = some m) :
    w1 = w2 ∧ assemble m.data = w1 :=
  ⟨(assemble_text w1 h1 m hm1).symm.trans (assemble_text w2 h2 m hm2),
    assemble_text w1 h1 m hm1⟩

/-- Instance of C18 at the word `0x8120`, rendered `LD V1, V2`. -/
theorem decoder_injective_witness :
    0x8120 < 65536 ∧ 0x8120 < 65536 ∧
    DisassembleInstruction 0x8120 = some "LD V1, V2" ∧
    DisassembleInstruction 0x8120 = some "LD V1, V2" ∧
    (0x8120 = 0x8120 ∧ assemble "LD V1, V2".data = 0x8120) :=
  ⟨by decide, by decide, by decide, by decide,
    decoder_injective 0x8120 0x8120 (by decide) (by decide) "LD V1, V2" (by decide) (by decide)⟩

/-! ## Length of the texts -/

theorem length_eq_data (s : String) : s.length = s.data.length := rfl

theorem dec_length (n : Nat) : 1 ≤ (dec n).length ∧ (dec n).length ≤ 3 := by
  unfold dec
  split_ifs <;> simp [String.length_mk]

theorem text_length (w : Nat) (h : w < 65536) (m : String)
    (hm : DisassembleInstruction w = some m) : 0 < m.length ∧ m.length ≤ 18 := by
  have hd := dec_length (w % 256)
  have hlt : w / 4096 < 16 := by omega
  obtain ⟨k, hk⟩ : ∃ k, w / 4096 = k := ⟨_, rfl⟩
  rw [hk] at hlt
  rw [length_eq_data]
  interval_cases k
  · rw [dis_sys w h hk] at hm
    split_ifs at hm <;> cases hm <;> simp [String.data_append, hex3]
  · rw [(dis_addr w h).1 hk] at hm
    cases hm
    simp [String.data_append, hex3]
  · rw [(dis_addr w h).2.1 hk] at hm
    cases hm
    simp [String.data_append, hex3]
  · rw [(dis_byte w h).1 hk] at hm
    cases hm
    simp [String.data_append, hex1, hex2]
    omega
  · rw [(dis_byte w h).2.1 hk] at hm
    cases hm
    simp [String.data_append, hex1, hex2]
    omega
  · rw [(dis_skip w h).1 hk] at hm
    split_ifs at hm
    cases hm
    simp [String.data_append, hex1]
  · rw [(dis_byte w h).2.2.1 hk] at hm
    cases hm
    simp [String.data_append, hex1, hex2]
    omega
  · rw [(dis_byte w h).2.2.2.1 hk] at hm
    cases hm
    simp [String.data_append, hex1, hex2]
    omega
  · rw [dis_alu w h hk] at hm
    have hl : w % 16 < 16 := by omega
    obtain ⟨l, hl2⟩ : ∃ l, w % 16 = l := ⟨_, rfl⟩
    rw [hl2] at hm hl
    interval_cases l <;> simp [aluName] at hm <;> subst hm <;>
      simp [String.data_append, hex1]
  · rw [(dis_skip w h).2 hk] at hm
    split_ifs at hm
    cases hm
    simp [String.data_append, hex1]
  · rw [(dis_addr w h).2.2.1 hk] at hm
    cases hm
    simp [String.data_append, hex3]
  · rw [(dis_addr w h).2.2.2 hk] at hm
    cases hm
    simp [String.data_append, hex3]
  · rw [(dis_byte w h).2.2.2.2 hk] at hm
    cases hm
    simp [String.data_append, hex1, hex2]
    omega
  · rw [dis_drw w h hk] at hm
    cases hm
    simp [String.data_append, hex1]
  · rw [dis_key w h hk] at hm
    split_ifs at hm <;> cases hm <;> simp [String.data_append, hex1]
  · rw [dis_misc w h hk] at hm
    split_ifs at hm <;> cases hm <;> simp [String.data_append, hex1]

theorem textOf_length (w : Nat) (h : w < 65536) :
    0 < (textOf w).length ∧ (textOf w).length ≤ 18 := by
  cases hm : DisassembleInstruction w with
  | none =>
    rw [textOf_none w hm]
    decide
  | some m =>
    rw [textOf_some w m hm]
    exact text_length w h m hm

/-- C19: the text of every recognized 16-bit word is non-empty and at most 18
characters long, so with its terminating NUL it fits in the 64-byte buffer of `main`;
so does the placeholder `???`.  The bound 18 is attained by `0x4AFF`. -/
theorem text_fits_buffer (w : Nat) (h : w < 65536) :
    (∀ m : String, DisassembleInstruction w = some m →
      0 < m.length ∧ m.length ≤ 18 ∧ m.length < 64 ∧ m.length + 1 ≤ 64) ∧
    "???".length = 3 ∧ "???".length + 1 ≤ 64 ∧
    (textOf w).length + 1 ≤ 64 ∧
    DisassembleInstruction 0x4AFF = some "SNE VA, 0xFF (255)" ∧
    "SNE VA, 0xFF (255)".length = 18 := by
  refine ⟨?_, by decide, by decide, ?_, by decide, by decide⟩
  · intro m hm
    have := text_length w h m hm
    omega
  · have := textOf_length w h
    omega

/-- Instance of C19 at the word `0xC0FF`. -/
theorem text_fits_buffer_witness :
    0xC0FF < 65536 ∧
    ((∀ m : String, DisassembleInstruction 0xC0FF = some m →
      0 < m.length ∧ m.length ≤ 18 ∧ m.length < 64 ∧ m.length + 1 ≤ 64) ∧
    "???".length = 3 ∧ "???".length + 1 ≤ 64 ∧
    (textOf 0xC0FF).length + 1 ≤ 64 ∧
    DisassembleInstruction 0x4AFF = some "SNE VA, 0xFF (255)" ∧
    "SNE VA, 0xFF (255)".length = 18) :=
  ⟨by decide, text_fits_buffer 0xC0FF (by decide)⟩

/-- C20: `CLS` is the text of exactly one word, `0x00E0`, and `RET` of exactly one
word, `0x00EE`; every other word with opcode 0, such as `0x01E0`, is rendered as
`SYS 0x` followed by its 12-bit address in three uppercase hex digits, and no word with
opcode 0 is unrecognized. -/
theorem cls_ret_unique (w : Nat) (h : w < 65536) :
    (DisassembleInstruction w = some "CLS" ↔ w = 0x00E0) ∧
    (DisassembleInstruction w = some "RET" ↔ w = 0x00EE) ∧
    (w / 4096 = 0 → w ≠ 0x00E0 → w ≠ 0x00EE →
      DisassembleInstruction w = some ("SYS 0x" ++ hex3 (w % 4096)) ∧
      valueIn 16 (hex3 (w % 4096)) = some (w % 4096)) ∧
    (w / 4096 = 0 → DisassembleInstruction w ≠ none) ∧
    DisassembleInstruction 0x01E0 = some "SYS 0x1E0" := by
  refine ⟨⟨?_, ?_⟩, ⟨?_, ?_⟩, ?_, ?_, by decide⟩
  · intro hm
    have := assemble_text w h "CLS" hm
    rw [← this]
    decide
  · intro hw
    subst hw
    decide
  · intro hm
    have := assemble_text w h "RET" hm
    rw [← this]
    decide
  · intro hw
    subst hw
    decide
  · intro hop h1 h2
    have c1 : ¬ (w / 256 % 16 = 0 ∧ w % 256 = 0xE0) := by omega
    have c2 : ¬ (w / 256 % 16 = 0 ∧ w % 256 = 0xEE) := by omega
    rw [dis_sys w h hop, if_neg c1, if_neg c2]
    exact ⟨rfl, valueIn_hex3 _ (by omega)⟩
  · intro hop
    rw [dis_sys w h hop]
    split_ifs <;> simp

/-- Instance of C20 at the word `0x01E0`. -/
theorem cls_ret_unique_witness :
    0x01E0 < 65536 ∧
    ((DisassembleInstruction 0x01E0 = some "CLS" ↔ 0x01E0 = 0x00E0) ∧
    (DisassembleInstruction 0x01E0 = some "RET" ↔ 0x01E0 = 0x00EE) ∧
    (0x01E0 / 4096 = 0 → 0x01E0 ≠ 0x00E0 → 0x01E0 ≠ 0x00EE →
      DisassembleInstruction 0x01E0 = some ("SYS 0x" ++ hex3 (0x01E0 % 4096)) ∧
      valueIn 16 (hex3 (0x01E0 % 4096)) = some (0x01E0 % 4096)) ∧
    (0x01E0 / 4096 = 0 → DisassembleInstruction 0x01E0 ≠ none) ∧
    DisassembleInstruction 0x01E0 = some "SYS 0x1E0") :=
  ⟨by decide, cls_ret_unique 0x01E0 (by decide)⟩

end Chip8
